import Mathlib

/-!
# VectorTools (deal.II, `source/numerics/vectors.cc`)

A shallow embedding of the transfer and measurement routines of `VectorTools`
and the properties proved about them.

Conventions of the embedding.

* A C++ array that is only read (`unit_support_points`, `support_points`,
  `dofs_on_cell`, the per-quadrature-point tables) is its index function
  `Nat → _`, read below the size that the source loops over.
* A vector the source grows with `push_back` is a `List`.
* `Point<dim>` is an arbitrary type with decidable equality; `operator==` on
  points is that equality.
* `double` is an arbitrary linearly ordered field `R`; `sqrt` is passed to the
  routines that call it.
-/

namespace VectorTools

/-! ## Representative support points (`interpolate`, lines 174-207) -/

/-- The inner search loop of `interpolate` (lines 188-195).  The argument
`j + 1` is the loop variable `j` of the source, which starts at
`dofs_of_rep_points.size()` and counts down while `j > 0`; the loop body
compares `unit_support_points[i]` with
`unit_support_points[dofs_of_rep_points[j-1]]`.  The result is `some (j-1)`
at the `break`, and `none` when the loop ends with `representative` still
`true`. -/
def find_rep {P : Type} [DecidableEq P] (unit_support_points : Nat → P)
    (dofs_of_rep_points : List Nat) (i : Nat) : Nat → Option Nat
  | 0 => none
  | j + 1 =>
    if unit_support_points i = unit_support_points (dofs_of_rep_points.getD j 0) then
      some j
    else
      find_rep unit_support_points dofs_of_rep_points i j

/-- The three variables the outer loop of lines 174-205 updates. -/
structure RepTable where
  dofs_of_rep_points : List Nat
  dof_to_rep_index_table : List Nat
  n_rep_points : Nat
  deriving DecidableEq, Repr

/-- One iteration of the outer loop (lines 180-205) for local dof `i`. -/
def rep_step {P : Type} [DecidableEq P] (unit_support_points : Nat → P)
    (s : RepTable) (i : Nat) : RepTable :=
  match find_rep unit_support_points s.dofs_of_rep_points i s.dofs_of_rep_points.length with
  | some k =>
    { dofs_of_rep_points := s.dofs_of_rep_points
      dof_to_rep_index_table := s.dof_to_rep_index_table ++ [k]
      n_rep_points := s.n_rep_points }
  | none =>
    { dofs_of_rep_points := s.dofs_of_rep_points ++ [i]
      dof_to_rep_index_table := s.dof_to_rep_index_table ++ [s.dofs_of_rep_points.length]
      n_rep_points := s.n_rep_points + 1 }

/-- The loop `for (i=0; i<fe.dofs_per_cell; ++i)` of lines 179-205, started
from the empty vectors and `n_rep_points = 0`. -/
def rep_table {P : Type} [DecidableEq P] (unit_support_points : Nat → P)
    (dofs_per_cell : Nat) : RepTable :=
  (List.range dofs_per_cell).foldl (rep_step unit_support_points) ⟨[], [], 0⟩

/-- What holds of the loop variables after the iterations `0, ..., n-1`. -/
structure RepInv {P : Type} (pts : Nat → P) (n : Nat) (s : RepTable) : Prop where
  tbl_length : s.dof_to_rep_index_table.length = n
  count : s.n_rep_points = s.dofs_of_rep_points.length
  first : ∀ (k r : Nat), s.dofs_of_rep_points[k]? = some r → r < n ∧ ∀ j, j < r → pts j ≠ pts r
  nodup : (s.dofs_of_rep_points.map pts).Nodup
  covers : ∀ i, i < n → ∃ k r : Nat, s.dof_to_rep_index_table[i]? = some k ∧
    s.dofs_of_rep_points[k]? = some r ∧ pts r = pts i


/-! ## The data `interpolate` reads and writes -/

/-- The exceptions the routines of this file raise through `Assert`. -/
inductive Exc
  | ExcComponentMismatch
  | ExcInternalError
  | ExcNotUseful
  | ExcNotImplemented
  | ExcInvalidFE
  | ExcInvalidBoundaryIndicator
  | ExcDimensionMismatch
  | UndefinedBehaviour
  deriving DecidableEq, Repr

/-- What the routines read of a `FiniteElement<dim>`: `n_components()`,
`dofs_per_cell`, the array filled by `get_unit_support_points` and
`system_to_component_index`. -/
structure FiniteElement (P : Type) where
  n_components : Nat
  dofs_per_cell : Nat
  unit_support_points : Nat → P
  system_to_component_index : Nat → Nat × Nat

/-- What `interpolate` reads of an active cell: the array filled by
`fe.get_support_points (cell, ·)` and the array filled by
`cell->get_dof_indices (·)`, both of size `dofs_per_cell`. -/
structure Cell (X : Type) where
  support_points : Nat → X
  dof_indices : Nat → Nat

/-- A `DoFHandler<dim>`: its finite element and its active cells in the order
`begin_active() ... end()` traverses them. -/
structure DoFHandler (P X : Type) where
  fe : FiniteElement P
  active_cells : List (Cell X)

/-- A `Function<dim>`: `n_components` and the four batch evaluators.  An
array of `n` points is passed as `n` and its index function; the result is
the index function of the array the evaluator fills.
`value_list n points component q`, `vector_value_list n points q c`,
`gradient_list n points component q d`,
`vector_gradient_list n points q c d`. -/
structure Function (X V : Type) where
  n_components : Nat
  value_list : Nat → (Nat → X) → Nat → Nat → V
  vector_value_list : Nat → (Nat → X) → Nat → Nat → V
  gradient_list : Nat → (Nat → X) → Nat → Nat → Nat → V
  vector_gradient_list : Nat → (Nat → X) → Nat → Nat → Nat → V

/-- An effect of a pass over the mesh, in the order the source performs them:
a call of one of the batch evaluators of the field, or an assignment
`vec(g) = ...`. -/
inductive Event
  | evaluate
  | assign (g : Nat)
  deriving DecidableEq, Repr

/-- The coefficient vector `vec` together with the record of the effects
performed so far.  The record is not a variable of the source; it is kept so
that statements about the number and order of assignments can be made. -/
structure VecState (V : Type) where
  vec : List V
  effects : List Event

/-- The assignment `vec(g) = v`.  An index `g` outside the vector is outside
the embedding (`Vector<double>::operator()` is not part of this file); the
list is left as it is there. -/
def VecState.assign {V : Type} (s : VecState V) (g : Nat) (v : V) : VecState V :=
  { vec := s.vec.set g v, effects := s.effects ++ [Event.assign g] }

/-- A call of `function.value_list` or `function.vector_value_list`. -/
def VecState.evaluated {V : Type} (s : VecState V) : VecState V :=
  { vec := s.vec, effects := s.effects ++ [Event.evaluate] }

/-- The body of the cell loop of `interpolate` (lines 226-272) for one
cell. -/
def interpolate_cell {P X V : Type} (fe : FiniteElement P) (function : Function X V)
    (tbl : RepTable) (cell : Cell X) (s : VecState V) : VecState V :=
  let rep_points : Nat → X := fun j => cell.support_points (tbl.dofs_of_rep_points.getD j 0)
  if fe.n_components ≠ 1 then
    let function_values_system := function.vector_value_list tbl.n_rep_points rep_points
    (List.range fe.dofs_per_cell).foldl
      (fun s i =>
        let component := (fe.system_to_component_index i).1
        let rep_dof := tbl.dof_to_rep_index_table.getD i 0
        s.assign (cell.dof_indices i) (function_values_system rep_dof component))
      s.evaluated
  else
    let function_values_scalar := function.value_list tbl.n_rep_points rep_points 0
    (List.range fe.dofs_per_cell).foldl
      (fun s i =>
        s.assign (cell.dof_indices i)
          (function_values_scalar (tbl.dof_to_rep_index_table.getD i 0)))
      s.evaluated

/-- The routine `VectorTools::interpolate (dof, function, vec)` (lines 46-274).  The first
component is the exception raised, if any; the second is the coefficient
vector and the effects performed when the call ends. -/
def interpolate {P X V : Type} [DecidableEq P] (dof : DoFHandler P X)
    (function : Function X V) (vec : List V) : Option Exc × VecState V :=
  if dof.fe.n_components ≠ function.n_components then
    (some Exc.ExcComponentMismatch, ⟨vec, []⟩)
  else
    let tbl := rep_table dof.fe.unit_support_points dof.fe.dofs_per_cell
    if tbl.dofs_of_rep_points.length ≠ tbl.n_rep_points then
      (some Exc.ExcInternalError, ⟨vec, []⟩)
    else if tbl.dof_to_rep_index_table.length ≠ dof.fe.dofs_per_cell then
      (some Exc.ExcInternalError, ⟨vec, []⟩)
    else
      (none, dof.active_cells.foldl
        (fun s cell => interpolate_cell dof.fe function tbl cell s) ⟨vec, []⟩)

/-- The value the scatter loops of lines 250-257 and 269-271 assign to
`vec(dofs_on_cell[i])`. -/
def scatter_value {P X V : Type} (fe : FiniteElement P) (function : Function X V)
    (tbl : RepTable) (cell : Cell X) (i : Nat) : V :=
  if fe.n_components ≠ 1 then
    function.vector_value_list tbl.n_rep_points
      (fun j => cell.support_points (tbl.dofs_of_rep_points.getD j 0))
      (tbl.dof_to_rep_index_table.getD i 0) (fe.system_to_component_index i).1
  else
    function.value_list tbl.n_rep_points
      (fun j => cell.support_points (tbl.dofs_of_rep_points.getD j 0)) 0
      (tbl.dof_to_rep_index_table.getD i 0)

/-- The number of local dofs `i < dofs_per_cell` of the active cells that
carry the global dof `g`. -/
def occurrences {P X : Type} (dof : DoFHandler P X) (g : Nat) : Nat :=
  (dof.active_cells.map
    (fun cell => ((List.range dof.fe.dofs_per_cell).filter
      (fun i => cell.dof_indices i = g)).length)).sum

/-! ### A one-dimensional example: four linear elements on `[0,4]` -/

/-- The linear element on the unit interval: one component, two dofs per
cell with unit support points `0` and `1`. -/
def fe_linear_1d : FiniteElement ℚ where
  n_components := 1
  dofs_per_cell := 2
  unit_support_points := fun i => (i : ℚ)
  system_to_component_index := fun i => (0, i)

/-- The `k`-th cell `[k, k+1]`: local dof `i` sits at `k + i` and is global
dof `k + i`. -/
def cell_1d (k : Nat) : Cell ℚ where
  support_points := fun i => (k : ℚ) + (i : ℚ)
  dof_indices := fun i => k + i

/-- Four unit cells on `[0,4]` with the five nodes numbered left to right. -/
def mesh_1d : DoFHandler ℚ ℚ where
  fe := fe_linear_1d
  active_cells := [cell_1d 0, cell_1d 1, cell_1d 2, cell_1d 3]

/-- The scalar field given pointwise by `f`, with the batch evaluators of the
base class `Function<dim>` (each entry is the pointwise value). -/
def scalar_field {X V : Type} (f : X → V) (grad : X → Nat → V) : Function X V where
  n_components := 1
  value_list := fun _ points _ q => f (points q)
  vector_value_list := fun _ points q _ => f (points q)
  gradient_list := fun _ points _ q d => grad (points q) d
  vector_gradient_list := fun _ points q _ d => grad (points q) d

/-- The field `f(x) = x` in one dimension. -/
def field_x : Function ℚ ℚ := scalar_field (fun x => x) (fun _ _ => 1)

/-! ## `integrate_difference` (lines 717-950) -/

/-- The enumeration `NormType`. -/
inductive NormType
  | mean
  | L1_norm
  | L2_norm
  | Linfty_norm
  | H1_seminorm
  | H1_norm
  deriving DecidableEq, Repr

/-- What `integrate_difference` reads of `fe_values` after
`fe_values.reinit (cell)`: the arrays `get_quadrature_points()` and
`get_JxW_values()` (size `n_q_points`), the array filled by
`get_function_values (fe_function, ·)` (entry `q`, component `c`) and the
array filled by `get_function_grads (fe_function, ·)` (entry `q`, component
`c`, coordinate `d`). -/
structure FEValuesCell (X R : Type) where
  quadrature_points : Nat → X
  JxW_values : Nat → R
  function_values : Nat → Nat → R
  function_grads : Nat → Nat → Nat → R

section Kernels

variable {R : Type} [LinearOrderedField R]

/-- The call `std::inner_product (a, a + n, b, init)`: the accumulator starts at
`init` and is replaced by `acc + a[q] * b[q]` for `q = 0, ..., n-1`. -/
def inner_product (n : Nat) (a b : Nat → R) (init : R) : R :=
  (List.range n).foldl (fun acc q => acc + a q * b q) init

/-- The value `Vector<double>::norm_sqr` of a vector with `n` entries: the sum of
the squares of the entries. -/
def norm_sqr (n : Nat) (v : Nat → R) : R :=
  (List.range n).foldl (fun acc c => acc + v c * v c) 0

/-- The function `sqr_point (p)` (lines 37-40): the product `p * p` of a `Tensor<1,dim>`
with itself. -/
def sqr_point (dim : Nat) (p : Nat → R) : R :=
  (List.range dim).foldl (fun acc d => acc + p d * p d) 0

/-- The call `std::max_element (a, a + n)`: the position of the first largest entry;
the position `n` (the end of the range) when the range is empty. -/
def max_element (n : Nat) (a : Nat → R) : Nat :=
  (List.range n).foldl (fun largest q => if a largest < a q then q else largest) 0

/-- The exact solution at the quadrature points as lines 790-799 store it in
`psi_values`: entry `q`, component `c`.  A system element takes
`vector_value_list`; a one-component element takes `value_list` and has the
single component `0`. -/
def exact_values {X : Type} (n_components n_q_points : Nat) (exact_solution : Function X R)
    (fe_values : FEValuesCell X R) : Nat → Nat → R :=
  if n_components ≠ 1 then
    exact_solution.vector_value_list n_q_points fe_values.quadrature_points
  else
    fun i _ => exact_solution.value_list n_q_points fe_values.quadrature_points 0 i

/-- The first block of the `switch` in the cell loop (lines 777-876), entered
for `mean`, `L1_norm`, `L2_norm`, `Linfty_norm` and `H1_norm`.  `psi_scalar`
is the array of that name as the previous cells left it; the result is the
value of `diff` at line 874 and the array `psi_scalar` after the block. -/
def values_block {X : Type} (sqrt : R → R) (n_components n_q_points : Nat)
    (exact_solution : Function X R) (norm : NormType) (weight : Option (Function X R))
    (fe_values : FEValuesCell X R) (psi_scalar : Nat → R) : Except Exc (R × (Nat → R)) :=
  -- lines 790-805: the exact solution at the quadrature points, minus the
  -- finite element function
  let psi_values : Nat → Nat → R := fun q c =>
    exact_values n_components n_q_points exact_solution fe_values q c
      - fe_values.function_values q c
  -- lines 816-833
  let psi_scalar₁ : Nat → R :=
    match norm with
    | NormType.mean => psi_scalar
    | NormType.L1_norm => fun q => sqrt (norm_sqr n_components (psi_values q))
    | NormType.Linfty_norm => fun q => sqrt (norm_sqr n_components (psi_values q))
    | NormType.L2_norm => fun q => norm_sqr n_components (psi_values q)
    | NormType.H1_norm => fun q => norm_sqr n_components (psi_values q)
    | NormType.H1_seminorm => psi_scalar
  -- lines 838-844
  let psi_scalar₂ : Nat → R :=
    match weight with
    | some w =>
      let weight_values := w.value_list n_q_points fe_values.quadrature_points 0
      fun q => psi_scalar₁ q * weight_values q
    | none => psi_scalar₁
  -- lines 851-869
  match norm with
  | NormType.mean =>
    Except.ok (inner_product n_q_points psi_scalar₂ fe_values.JxW_values 0, psi_scalar₂)
  | NormType.L1_norm =>
    Except.ok (inner_product n_q_points psi_scalar₂ fe_values.JxW_values 0, psi_scalar₂)
  | NormType.L2_norm =>
    Except.ok (sqrt (inner_product n_q_points psi_scalar₂ fe_values.JxW_values 0), psi_scalar₂)
  | NormType.H1_norm =>
    Except.ok (inner_product n_q_points psi_scalar₂ fe_values.JxW_values 0, psi_scalar₂)
  | NormType.Linfty_norm =>
    if max_element n_q_points psi_scalar₂ < n_q_points then
      Except.ok (psi_scalar₂ (max_element n_q_points psi_scalar₂), psi_scalar₂)
    else
      Except.error Exc.UndefinedBehaviour
  | NormType.H1_seminorm => Except.error Exc.ExcNotImplemented

/-- The second block of the `switch` (lines 878-939), entered for
`H1_seminorm` with `diff = 0` and for `H1_norm` with the `diff` the first
block left.  The result is the value of `diff` after line 936. -/
def gradients_block {X : Type} (sqrt : R → R) (dim n_components n_q_points : Nat)
    (exact_solution : Function X R) (weight : Option (Function X R))
    (fe_values : FEValuesCell X R) (diff : R) : R :=
  let fe_is_system := n_components ≠ 1
  -- lines 896-905
  let exact_grads : Nat → Nat → Nat → R :=
    if fe_is_system then
      exact_solution.vector_gradient_list n_q_points fe_values.quadrature_points
    else
      fun i _ => exact_solution.gradient_list n_q_points fe_values.quadrature_points 0 i
  -- lines 909-912
  let psi_grads : Nat → Nat → Nat → R :=
    fun q k d => exact_grads q k d - fe_values.function_grads q k d
  -- lines 915-918
  let psi_square : Nat → R := fun q =>
    (List.range n_components).foldl (fun acc k => acc + sqr_point dim (psi_grads q k)) 0
  -- lines 923-929
  let psi_square₂ : Nat → R :=
    match weight with
    | some w =>
      let weight_values := w.value_list n_q_points fe_values.quadrature_points 0
      fun q => psi_square q * weight_values q
    | none => psi_square
  -- lines 933-936
  sqrt (diff + inner_product n_q_points psi_square₂ fe_values.JxW_values 0)

/-- The body of the cell loop (lines 771-948) for one cell: the value
assigned to `difference(index)` and the array `psi_scalar` the cell leaves
behind. -/
def integrate_difference_cell {X : Type} (sqrt : R → R) (dim n_components n_q_points : Nat)
    (exact_solution : Function X R) (norm : NormType) (weight : Option (Function X R))
    (fe_values : FEValuesCell X R) (psi_scalar : Nat → R) : Except Exc (R × (Nat → R)) :=
  match norm with
  | NormType.H1_seminorm =>
    Except.ok (gradients_block sqrt dim n_components n_q_points exact_solution weight
      fe_values 0, psi_scalar)
  | NormType.H1_norm =>
    match values_block sqrt n_components n_q_points exact_solution norm weight fe_values
      psi_scalar with
    | Except.ok (diff, psi_scalar₂) =>
      Except.ok (gradients_block sqrt dim n_components n_q_points exact_solution weight
        fe_values diff, psi_scalar₂)
    | Except.error e => Except.error e
  | _ =>
    values_block sqrt n_components n_q_points exact_solution norm weight fe_values psi_scalar

/-- The cell loop (lines 769-949): `difference` is the list of the values
assigned so far, in the order of the traversal. -/
def integrate_difference_loop {X : Type} (sqrt : R → R) (dim n_components n_q_points : Nat)
    (exact_solution : Function X R) (norm : NormType) (weight : Option (Function X R)) :
    List (FEValuesCell X R) → (Nat → R) → Except Exc (List R)
  | [], _ => Except.ok []
  | fe_values :: cells, psi_scalar =>
    match integrate_difference_cell sqrt dim n_components n_q_points exact_solution norm
      weight fe_values psi_scalar with
    | Except.error e => Except.error e
    | Except.ok (diff, psi_scalar₂) =>
      match integrate_difference_loop sqrt dim n_components n_q_points exact_solution norm
        weight cells psi_scalar₂ with
      | Except.error e => Except.error e
      | Except.ok difference => Except.ok (diff :: difference)

/-- The routine `VectorTools::integrate_difference` (lines 717-950).  `cells` holds, for
each active cell in traversal order, what `fe_values` provides on it; the
result is the vector `difference`, one entry per active cell.  The array
`psi_scalar` is created once, filled with zeros, before the loop
(line 757).  The conversion of `diff` to the `float` entries of `difference`
is exact in the arithmetic of `R`. -/
def integrate_difference {X : Type} (sqrt : R → R) (dim n_components n_q_points : Nat)
    (cells : List (FEValuesCell X R)) (exact_solution : Function X R) (norm : NormType)
    (weight : Option (Function X R)) : Except Exc (List R) :=
  if n_components = 1 ∧ norm = NormType.mean then
    Except.error Exc.ExcNotUseful
  else
    integrate_difference_loop sqrt dim n_components n_q_points exact_solution norm weight
      cells (fun _ => 0)

/-! ### Example data for `integrate_difference` -/

/-- A cell with the quadrature point `()`, weight `JxW = 1`, and a discrete
function that vanishes together with its gradient. -/
def unit_cell : FEValuesCell Unit R where
  quadrature_points := fun _ => ()
  JxW_values := fun _ => 1
  function_values := fun _ _ => 0
  function_grads := fun _ _ _ => 0

/-- The scalar field with the constant value `2`. -/
def field_two : Function Unit R := scalar_field (fun _ => 2) (fun _ _ => 0)

/-- The field with two components and the constant value `(1, 0)`. -/
def field_one_zero : Function Unit R where
  n_components := 2
  value_list := fun _ _ c _ => if c = 0 then 1 else 0
  vector_value_list := fun _ _ _ c => if c = 0 then 1 else 0
  gradient_list := fun _ _ _ _ _ => 0
  vector_gradient_list := fun _ _ _ _ _ => 0

/-- The scalar field with the constant value `3` and the constant gradient
`4`. -/
def field_three_four : Function Unit R := scalar_field (fun _ => 3) (fun _ _ => 4)

/-- A cell like `unit_cell` on which the discrete function has the value
`2`. -/
def unit_cell_two : FEValuesCell Unit R where
  quadrature_points := fun _ => ()
  JxW_values := fun _ => 1
  function_values := fun _ _ => 2
  function_grads := fun _ _ _ => 0

/-- The weight function with the constant value `1`. -/
def weight_one : Function Unit R := scalar_field (fun _ => 1) (fun _ _ => 0)

end Kernels

/-! ## Closed forms for the integrands of `integrate_difference` -/

section DifferenceForms

variable {R : Type} [LinearOrderedField R] {X : Type}

/-- The exact gradients at the quadrature points as lines 896-905 store them
in `psi_grads`: entry `q`, component `c`, coordinate `d`.  A system element
takes `vector_gradient_list`; a one-component element takes `gradient_list`
and has the single component `0`. -/
def exact_grads (n_components n_q_points : Nat) (exact_solution : Function X R)
    (fe_values : FEValuesCell X R) : Nat → Nat → Nat → R :=
  if n_components ≠ 1 then
    exact_solution.vector_gradient_list n_q_points fe_values.quadrature_points
  else
    fun i _ => exact_solution.gradient_list n_q_points fe_values.quadrature_points 0 i

/-- The factor by which lines 838-844 and 923-929 multiply the integrand at
the quadrature point `q`: the entry `weight_values[q]` when a weight is
given, and `1` (no multiplication) when `weight` is the null pointer. -/
def weight_factor (weight : Option (Function X R)) (n_q_points : Nat)
    (fe_values : FEValuesCell X R) (q : Nat) : R :=
  match weight with
  | some w => w.value_list n_q_points fe_values.quadrature_points 0 q
  | none => 1

end DifferenceForms

/-! ## `subtract_mean_value` (lines 954-976) -/

section MeanValue

variable {R : Type} [LinearOrderedField R]

/-- The first loop of `subtract_mean_value` (lines 961-969): the pair of `s`
and `counter` after the loop. -/
def selected_sum (v : List R) (p_select : List Bool) (n : Nat) : R × Nat :=
  (List.range n).foldl
    (fun acc i => if p_select.getD i false then (acc.1 + v.getD i 0, acc.2 + 1) else acc)
    (0, 0)

/-- The routine `VectorTools::subtract_mean_value (v, p_select)` (lines
954-976).  The first component is the exception raised, if any; the second
is the vector `v` when the call ends.  The quotient `s /= counter` is the
division of `R`; the source has no test of `counter`. -/
def subtract_mean_value (v : List R) (p_select : List Bool) : Option Exc × List R :=
  let n := v.length
  if n ≠ p_select.length then
    (some Exc.ExcDimensionMismatch, v)
  else
    let sums := selected_sum v p_select n
    let s := sums.1 / (sums.2 : R)
    (none, (List.range n).foldl
      (fun v i => if p_select.getD i false then v.set i (v.getD i 0 - s) else v) v)

end MeanValue

/-! ## `interpolate_boundary_values` (lines 468-630) -/

/-- What the boundary routines read of a `FiniteElement<dim>`:
`n_components()`, `dofs_per_face`, `dofs_per_vertex` and
`face_system_to_component_index`. -/
structure FaceFiniteElement where
  n_components : Nat
  dofs_per_face : Nat
  dofs_per_vertex : Nat
  face_system_to_component_index : Nat → Nat × Nat

/-- What the boundary routines read of an active face: its
`boundary_indicator()` (an `unsigned char`; `255` marks a face that is not
part of the boundary), the array filled by `face->get_dof_indices (·)` and
the array filled by `fe.get_face_support_points (face, ·)`, both of size
`dofs_per_face`. -/
structure Face (X : Type) where
  boundary_indicator : Fin 256
  dof_indices : Nat → Nat
  support_points : Nat → X

/-- A `DoFHandler<dim>` as the boundary routines see it: the finite element
and the active faces in the order `begin_active_face() ... end_face()`
traverses them. -/
structure FaceDoFHandler (X : Type) where
  fe : FaceFiniteElement
  active_faces : List (Face X)

/-- A `Function<dim>` together with its pointwise evaluator
`value (p, component)`. -/
structure PointFunction (X V : Type) extends Function X V where
  value : X → Nat → V

/-- The map `map<int,double> boundary_values`: the value stored under a
key, if the key is present. -/
def BoundaryValues (R : Type) : Type := Nat → Option R

/-- The assignment `boundary_values[k] = x`, which creates the entry when
the key is absent. -/
def BoundaryValues.assign {R : Type} (m : BoundaryValues R) (k : Nat) (x : R) :
    BoundaryValues R :=
  fun j => if j = k then some x else m j

/-- The local `component_mask` of lines 488-490 and 572-574: the mask passed
in, or `n_components` times `true` when the mask passed in has size zero. -/
def component_mask (n_components : Nat) (component_mask_ : List Bool) : List Bool :=
  if component_mask_.length = 0 then List.replicate n_components true else component_mask_

/-- The body of the face loop of the general `interpolate_boundary_values`
(lines 600-628) for a face of the requested boundary component.  An index
outside `component_mask` is outside the embedding; the mask reads `false`
there. -/
def interpolate_boundary_values_face {X R : Type} (fe : FaceFiniteElement)
    (boundary_function : Function X R) (component_mask : List Bool) (face : Face X)
    (boundary_values : BoundaryValues R) : BoundaryValues R :=
  if fe.n_components ≠ 1 then
    let dof_values_system :=
      boundary_function.vector_value_list fe.dofs_per_face face.support_points
    (List.range fe.dofs_per_face).foldl
      (fun boundary_values i =>
        if component_mask.getD (fe.face_system_to_component_index i).1 false then
          boundary_values.assign (face.dof_indices i)
            (dof_values_system i (fe.face_system_to_component_index i).1)
        else
          boundary_values)
      boundary_values
  else
    let dof_values_scalar :=
      boundary_function.value_list fe.dofs_per_face face.support_points 0
    (List.range fe.dofs_per_face).foldl
      (fun boundary_values i => boundary_values.assign (face.dof_indices i) (dof_values_scalar i))
      boundary_values

/-- The general template `VectorTools::interpolate_boundary_values` (lines
551-630).  The first component is the exception raised, if any; the second
is the map `boundary_values` when the call ends. -/
def interpolate_boundary_values {X R : Type} (dof : FaceDoFHandler X)
    (boundary_component : Fin 256) (boundary_function : Function X R)
    (boundary_values : BoundaryValues R) (component_mask_ : List Bool) :
    Option Exc × BoundaryValues R :=
  if boundary_component = 255 then
    (some Exc.ExcInvalidBoundaryIndicator, boundary_values)
  else if dof.fe.n_components ≠ boundary_function.n_components then
    (some Exc.ExcInvalidFE, boundary_values)
  else
    let mask := component_mask dof.fe.n_components component_mask_
    if ¬ (0 < mask.count true) then
      (some Exc.ExcComponentMismatch, boundary_values)
    else
      (none, dof.active_faces.foldl
        (fun boundary_values face =>
          if boundary_component = face.boundary_indicator then
            interpolate_boundary_values_face dof.fe boundary_function mask face boundary_values
          else
            boundary_values)
        boundary_values)

/-- What the one-dimensional `interpolate_boundary_values` reads of a cell
of the line: `neighbor (k)` (the index of the neighbour when its state is
`valid`), `has_children ()`, `child (k)`, `vertex (k)` and
`vertex_dof_index (k, i)`. -/
structure LineCell (X : Type) where
  neighbor : Nat → Option Nat
  has_children : Bool
  child : Nat → Nat
  vertex : Nat → X
  vertex_dof_index : Nat → Nat → Nat

/-- A `DoFHandler<1>`: the finite element, the cells by index, and the
indices of the cells `begin (0)` and `last (0)`. -/
structure LineDoFHandler (X : Type) where
  fe : FaceFiniteElement
  cells : Nat → LineCell X
  begin_0 : Nat
  last_0 : Nat

/-- The loop `while (cell->neighbor(side).state() == valid) cell =
cell->neighbor(side);` (lines 503-504 and 530-531), run for at most `fuel`
tests of the condition; `none` when the loop has not ended by then. -/
def walk_neighbors {X : Type} (dof : LineDoFHandler X) (side : Nat) : Nat → Nat → Option Nat
  | 0, _ => none
  | fuel + 1, cell =>
    match (dof.cells cell).neighbor side with
    | some next => walk_neighbors dof side fuel next
    | none => some cell

/-- The loop `while (cell->has_children()) cell = cell->child(side);` (lines
506-507 and 533-534), run for at most `fuel` tests of the condition; `none`
when the loop has not ended by then. -/
def walk_children {X : Type} (dof : LineDoFHandler X) (side : Nat) : Nat → Nat → Option Nat
  | 0, _ => none
  | fuel + 1, cell =>
    if (dof.cells cell).has_children then
      walk_children dof side fuel ((dof.cells cell).child side)
    else
      some cell

/-- The loops of lines 515-518 and 538-541 over the dofs of the vertex
`side` of the outermost cell. -/
def set_vertex_values {X R : Type} (fe : FaceFiniteElement)
    (boundary_function : PointFunction X R) (component_mask : List Bool) (cell : LineCell X)
    (side : Nat) (boundary_values : BoundaryValues R) : BoundaryValues R :=
  (List.range fe.dofs_per_vertex).foldl
    (fun boundary_values i =>
      if component_mask.getD (fe.face_system_to_component_index i).1 false then
        boundary_values.assign (cell.vertex_dof_index side i)
          (boundary_function.value (cell.vertex side) i)
      else
        boundary_values)
    boundary_values

/-- One of the two blocks of lines 496-519 and 523-542: find the outermost
active cell on the side `side`, starting from the coarse cell `start`, and
set the values at its outer vertex.  The result is `none` when one of the two
loops has not ended after `fuel` tests. -/
def boundary_block {X R : Type} (fuel : Nat) (dof : LineDoFHandler X)
    (boundary_function : PointFunction X R) (component_mask : List Bool) (start side : Nat)
    (boundary_values : BoundaryValues R) : Option (BoundaryValues R) :=
  match walk_neighbors dof side fuel start with
  | none => none
  | some coarse =>
    match walk_children dof side fuel coarse with
    | none => none
    | some cell =>
      some (set_vertex_values dof.fe boundary_function component_mask (dof.cells cell) side
        boundary_values)

/-- The specialisation `VectorTools::interpolate_boundary_values<1>` (lines
468-544).  The result is `none` when a `while` loop has not ended after
`fuel` tests of its condition; otherwise the exception raised, if any, and
the map `boundary_values` when the call ends. -/
def interpolate_boundary_values_1d {X R : Type} (fuel : Nat) (dof : LineDoFHandler X)
    (boundary_component : Fin 256) (boundary_function : PointFunction X R)
    (boundary_values : BoundaryValues R) (component_mask_ : List Bool) :
    Option (Option Exc × BoundaryValues R) :=
  if boundary_component = 255 then
    some (some Exc.ExcInvalidBoundaryIndicator, boundary_values)
  else if dof.fe.n_components ≠ boundary_function.n_components then
    some (some Exc.ExcComponentMismatch, boundary_values)
  else if dof.fe.dofs_per_vertex ≠ dof.fe.n_components then
    some (some Exc.ExcComponentMismatch, boundary_values)
  else
    let mask := component_mask dof.fe.n_components component_mask_
    if ¬ (0 < mask.count true) then
      some (some Exc.ExcComponentMismatch, boundary_values)
    else
      let left : Option (BoundaryValues R) :=
        if boundary_component = 0 then
          boundary_block fuel dof boundary_function mask dof.begin_0 0 boundary_values
        else
          some boundary_values
      match left with
      | none => none
      | some boundary_values₁ =>
        let right : Option (BoundaryValues R) :=
          if boundary_component = 1 then
            boundary_block fuel dof boundary_function mask dof.last_0 1 boundary_values₁
          else
            some boundary_values₁
        match right with
        | none => none
        | some boundary_values₂ => some (none, boundary_values₂)

/-! ## `project` and `project_boundary_values` (lines 302-429 and 634-713) -/

/-- The map `map<unsigned char,const Function<dim>*> boundary_functions`: the
function stored under a boundary indicator, if the indicator is a key. -/
def BoundaryFunctions (X R : Type) : Type := Nat → Option (Function X R)

/-- The loop `for (unsigned char c=0; c<255; ++c) boundary_functions[c] =
&function;` of lines 377-378, from the value `c` of the loop variable and the
map built so far, run for at most `fuel` tests of the condition; `none` when
the loop has not ended by then.  The increment of the `unsigned char` is taken
modulo `256`. -/
def boundary_functions_loop {X R : Type} (function : Function X R) :
    Nat → Nat → BoundaryFunctions X R → Option (BoundaryFunctions X R)
  | 0, _, _ => none
  | fuel + 1, c, boundary_functions =>
    if c < 255 then
      boundary_functions_loop function fuel ((c + 1) % 256)
        (fun k => if k = c then some function else boundary_functions k)
    else
      some boundary_functions

/-- The element `boundary_functions.begin()->second`: the function stored
under the smallest key. -/
def begin_function {X R : Type} (boundary_functions : BoundaryFunctions X R) :
    Option (Function X R) :=
  (List.range 256).findSome? boundary_functions

/-- The loop of lines 703-712 that fills in the boundary values: `i` is the
global dof number, `dof_to_boundary_mapping[i]` its number on the boundary
(`-1` for a dof that is not on an interesting part of the boundary). -/
def fill_boundary_values {R : Type} (dof_to_boundary_mapping : List Int)
    (boundary_projection : Nat → R) (boundary_values : BoundaryValues R) : BoundaryValues R :=
  (List.range dof_to_boundary_mapping.length).foldl
    (fun boundary_values i =>
      if dof_to_boundary_mapping.getD i (-1) ≠ -1 then
        boundary_values.assign i
          (boundary_projection (dof_to_boundary_mapping.getD i (-1)).toNat)
      else
        boundary_values)
    boundary_values

/-- The routine `VectorTools::project_boundary_values` (lines 634-713) for
the ambient dimension `dim`.  `n_components` is `dof.get_fe().n_components()`;
`dof_to_boundary_mapping` is what `dof.map_dof_to_boundary_indices` returns
and `boundary_projection` what `cg.solve` returns, both computed outside this
file.  The first component is the exception raised, if any; the second is
the map `boundary_values` when the call ends.  Dereferencing `begin()` of
an empty map is undefined. -/
def project_boundary_values {X R : Type} (dim n_components : Nat)
    (boundary_functions : BoundaryFunctions X R) (dof_to_boundary_mapping : List Int)
    (boundary_projection : Nat → R) (boundary_values : BoundaryValues R) :
    Option Exc × BoundaryValues R :=
  match begin_function boundary_functions with
  | none => (some Exc.UndefinedBehaviour, boundary_values)
  | some first =>
    if n_components ≠ first.n_components then
      (some Exc.ExcComponentMismatch, boundary_values)
    -- lines 669-672
    else if ¬ dim < 3 then
      (some Exc.ExcNotImplemented, boundary_values)
    -- line 686
    else if ¬ dim < 3 then
      (some Exc.ExcNotImplemented, boundary_values)
    else
      (none, fill_boundary_values dof_to_boundary_mapping boundary_projection boundary_values)

/-- What `project` reads of an active face: the data of `Face` and
`face->at_boundary()`. -/
structure BoundaryFace (X : Type) extends Face X where
  at_boundary : Bool

/-- The loop of lines 353-365 of `project`: the value `0` is entered for all
dofs of all active faces at the boundary. -/
def enforce_zero_boundary_values {X R : Type} [Zero R] (dofs_per_face : Nat)
    (active_faces : List (BoundaryFace X)) (boundary_values : BoundaryValues R) :
    BoundaryValues R :=
  active_faces.foldl
    (fun boundary_values face =>
      if face.at_boundary then
        (List.range dofs_per_face).foldl
          (fun boundary_values i => boundary_values.assign (face.dof_indices i) 0)
          boundary_values
      else
        boundary_values)
    boundary_values

/-- The part of `VectorTools::project` that makes up the boundary values
(lines 302-381): the specialisation for `dim = 1`, which is
`Assert (false, ExcNotImplemented())`, and lines 337-381 of the general
template.  The result is `none` when the loop over the boundary indicators has
not ended after `fuel` tests; otherwise the exception raised, if any, and the
local map `boundary_values` at line 383.  The arguments
`dof_to_boundary_mapping` and `boundary_projection` are those of
`project_boundary_values`. -/
def project_make_boundary_values {X R : Type} [Zero R] (fuel dim : Nat)
    (fe : FaceFiniteElement) (active_faces : List (BoundaryFace X)) (function : Function X R)
    (enforce_zero_boundary project_to_boundary_first : Bool)
    (dof_to_boundary_mapping : List Int) (boundary_projection : Nat → R) :
    Option (Option Exc × BoundaryValues R) :=
  if dim = 1 then
    some (some Exc.ExcNotImplemented, fun _ => none)
  else if fe.n_components ≠ function.n_components then
    some (some Exc.ExcInvalidFE, fun _ => none)
  else if enforce_zero_boundary = true then
    some (none, enforce_zero_boundary_values fe.dofs_per_face active_faces (fun _ => none))
  else if project_to_boundary_first = true then
    match boundary_functions_loop function fuel 0 (fun _ => none) with
    | none => none
    | some boundary_functions =>
      some (project_boundary_values dim fe.n_components boundary_functions
        dof_to_boundary_mapping boundary_projection (fun _ => none))
  else
    some (none, fun _ => none)

/-! ## The update flags of `integrate_difference` (lines 737-745) -/

/-- Modelled from the spec: the enumeration `UpdateFlags` is declared in a
header that is not part of this file.  The four flags the routine names are
taken as four different bits. -/
inductive UpdateFlag
  | update_q_points
  | update_JxW_values
  | update_values
  | update_gradients
  deriving DecidableEq, Repr

/-- The value of `update_flags` passed to the constructor of `FEValues` at
line 745; a flag word is the set of its bits and `|` the union.  The
statement `update_flags != update_values;` of line 740 is a comparison whose
value is discarded. -/
def integrate_difference_update_flags (norm : NormType) : Finset UpdateFlag :=
  let update_flags : Finset UpdateFlag :=
    {UpdateFlag.update_q_points} ∪ {UpdateFlag.update_JxW_values}
  let update_flags₁ : Finset UpdateFlag :=
    if norm ≠ NormType.H1_seminorm then
      let _discarded : Bool := decide (update_flags ≠ {UpdateFlag.update_values})
      update_flags
    else
      update_flags
  if norm = NormType.H1_seminorm ∨ norm = NormType.H1_norm then
    update_flags₁ ∪ {UpdateFlag.update_gradients}
  else
    update_flags₁

/-! ### Example data for the boundary routines -/

/-- The face element of a one-component element with two dofs per face. -/
def fe_face_scalar : FaceFiniteElement where
  n_components := 1
  dofs_per_face := 2
  dofs_per_vertex := 1
  face_system_to_component_index := fun i => (0, i)

/-- Three active faces: one with boundary indicator `0` carrying the dofs
`0, 1`, an interior face carrying the dofs `2, 3`, and one with boundary
indicator `3` carrying the dofs `4, 5`. -/
def example_faces : List (Face Unit) :=
  [⟨0, fun i => i, fun _ => ()⟩, ⟨255, fun i => 2 + i, fun _ => ()⟩,
    ⟨3, fun i => 4 + i, fun _ => ()⟩]

/-- The faces of `example_faces` with the answer of `at_boundary ()`. -/
def example_boundary_faces : List (BoundaryFace Unit) :=
  [⟨⟨0, fun i => i, fun _ => ()⟩, true⟩, ⟨⟨255, fun i => 2 + i, fun _ => ()⟩, false⟩,
    ⟨⟨3, fun i => 4 + i, fun _ => ()⟩, true⟩]

/-- The scalar boundary function with the constant value `7`. -/
def field_seven : Function Unit ℚ := scalar_field (fun _ => 7) (fun _ _ => 0)

/-- The vertex element of the linear element in one dimension: one
component, one dof per vertex. -/
def fe_vertex : FaceFiniteElement where
  n_components := 1
  dofs_per_face := 1
  dofs_per_vertex := 1
  face_system_to_component_index := fun i => (0, i)

/-- The five nodes of the four unit cells on `[0,4]`, taken as faces: node
`k` sits at `k`, carries the dof `k`, and is at the boundary for `k = 0` and
`k = 4`. -/
def line_nodes : List (BoundaryFace ℚ) :=
  (List.range 5).map (fun k =>
    { boundary_indicator := if k = 0 then 0 else if k = 4 then 1 else 255
      dof_indices := fun i => k + i
      support_points := fun _ => (k : ℚ)
      at_boundary := decide (k = 0 ∨ k = 4) })

/-! ### Example data -/

/-- Seven reference points with repetitions: the points of local dofs
`0, 2, 5` coincide, as do those of `1, 4`. -/
def example_points : Nat → Nat := fun i => [10, 11, 10, 12, 11, 10, 13].getD i 0

/-! ### Loop invariant of the representative search -/

section RepInvariant

variable {P : Type} [DecidableEq P]

theorem find_rep_some {pts : Nat → P} {reps : List Nat} {i : Nat} :
    ∀ {m k : Nat}, find_rep pts reps i m = some k → k < m ∧ pts i = pts (reps.getD k 0)
  | 0, k, h => by simp [find_rep] at h
  | m + 1, k, h => by
    unfold find_rep at h
    split at h
    · rename_i heq
      cases h
      exact ⟨Nat.lt_succ_self _, heq⟩
    · obtain ⟨h1, h2⟩ := find_rep_some h
      exact ⟨Nat.lt_succ_of_lt h1, h2⟩

theorem find_rep_none {pts : Nat → P} {reps : List Nat} {i : Nat} :
    ∀ {m : Nat}, find_rep pts reps i m = none → ∀ j, j < m → pts i ≠ pts (reps.getD j 0)
  | 0, _, j, hj => absurd hj (Nat.not_lt_zero j)
  | m + 1, h, j, hj => by
    unfold find_rep at h
    split at h
    · cases h
    · rename_i hne
      rcases Nat.lt_succ_iff_lt_or_eq.mp hj with hlt | rfl
      · exact find_rep_none h j hlt
      · exact hne

omit [DecidableEq P] in
theorem repInv_init (pts : Nat → P) : RepInv pts 0 ⟨[], [], 0⟩ where
  tbl_length := rfl
  count := rfl
  first := by intro k r h; simp at h
  nodup := by simp
  covers := by intro i hi; exact absurd hi (Nat.not_lt_zero i)

theorem repInv_step {pts : Nat → P} {n : Nat} {s : RepTable} (h : RepInv pts n s) :
    RepInv pts (n + 1) (rep_step pts s n) := by
  unfold rep_step
  cases hf : find_rep pts s.dofs_of_rep_points n s.dofs_of_rep_points.length with
  | some k =>
    obtain ⟨hk, hpt⟩ := find_rep_some hf
    have hget : s.dofs_of_rep_points[k]? = some (s.dofs_of_rep_points.getD k 0) := by
      rw [List.getD_eq_getElem?_getD, List.getElem?_eq_getElem hk]; rfl
    refine ⟨by simp [h.tbl_length], h.count, ?_, h.nodup, ?_⟩
    · intro k' r hr
      exact ⟨Nat.lt_succ_of_lt (h.first k' r hr).1, (h.first k' r hr).2⟩
    · intro i hi
      rcases Nat.lt_succ_iff_lt_or_eq.mp hi with hlt | rfl
      · obtain ⟨k', r, h1, h2, h3⟩ := h.covers i hlt
        refine ⟨k', r, ?_, h2, h3⟩
        show (s.dof_to_rep_index_table ++ [k])[i]? = some k'
        rw [List.getElem?_append_left (by rw [h.tbl_length]; exact hlt)]
        exact h1
      · refine ⟨k, _, ?_, hget, hpt.symm⟩
        show (s.dof_to_rep_index_table ++ [k])[i]? = some k
        rw [List.getElem?_append_right (by rw [h.tbl_length]), h.tbl_length]
        simp
  | none =>
    have hnone := find_rep_none hf
    have hnew : ∀ j, j < n → pts j ≠ pts n := by
      intro j hj heq
      obtain ⟨k, r, -, h2, h3⟩ := h.covers j hj
      have hk : k < s.dofs_of_rep_points.length := by
        by_contra hge
        rw [List.getElem?_eq_none (Nat.le_of_not_lt hge)] at h2
        cases h2
      have hr : s.dofs_of_rep_points.getD k 0 = r := by
        rw [List.getD_eq_getElem?_getD, h2]; rfl
      apply hnone k hk
      rw [hr, h3, heq]
    refine ⟨by simp [h.tbl_length], by simp [h.count], ?_, ?_, ?_⟩
    · intro k r hr
      by_cases hk : k < s.dofs_of_rep_points.length
      · have hr' : s.dofs_of_rep_points[k]? = some r := by
          have : (s.dofs_of_rep_points ++ [n])[k]? = some r := hr
          rwa [List.getElem?_append_left hk] at this
        exact ⟨Nat.lt_succ_of_lt (h.first k r hr').1, (h.first k r hr').2⟩
      · have : (s.dofs_of_rep_points ++ [n])[k]? = some r := hr
        rw [List.getElem?_append_right (Nat.le_of_not_lt hk)] at this
        have hrn : r = n := by
          cases hz : k - s.dofs_of_rep_points.length with
          | zero => rw [hz] at this; simpa using this.symm
          | succ m => rw [hz] at this; simp at this
        subst hrn
        exact ⟨Nat.lt_succ_self _, hnew⟩
    · show ((s.dofs_of_rep_points ++ [n]).map pts).Nodup
      rw [List.map_append, List.nodup_append]
      refine ⟨h.nodup, by simp, ?_⟩
      intro a ha hb
      rw [List.map_singleton, List.mem_singleton] at hb
      obtain ⟨r, hr, hra⟩ := List.mem_map.mp ha
      obtain ⟨k, hk, hkr⟩ := List.getElem_of_mem hr
      have hget : s.dofs_of_rep_points[k]? = some r := by
        rw [List.getElem?_eq_getElem hk, hkr]
      have hlt := (h.first k r hget).1
      exact hnew r hlt (by rw [hra, hb])
    · intro i hi
      rcases Nat.lt_succ_iff_lt_or_eq.mp hi with hlt | rfl
      · obtain ⟨k', r, h1, h2, h3⟩ := h.covers i hlt
        have hk' : k' < s.dofs_of_rep_points.length := by
          by_contra hge
          rw [List.getElem?_eq_none (Nat.le_of_not_lt hge)] at h2
          cases h2
        refine ⟨k', r, ?_, ?_, h3⟩
        · show (s.dof_to_rep_index_table ++ [s.dofs_of_rep_points.length])[i]? = some k'
          rw [List.getElem?_append_left (by rw [h.tbl_length]; exact hlt)]
          exact h1
        · show (s.dofs_of_rep_points ++ [n])[k']? = some r
          rw [List.getElem?_append_left hk']
          exact h2
      · refine ⟨s.dofs_of_rep_points.length, i, ?_, ?_, rfl⟩
        · show (s.dof_to_rep_index_table ++ [s.dofs_of_rep_points.length])[i]? = _
          rw [List.getElem?_append_right (by rw [h.tbl_length]), h.tbl_length]
          simp
        · show (s.dofs_of_rep_points ++ [i])[s.dofs_of_rep_points.length]? = some i
          rw [List.getElem?_append_right (Nat.le_refl _)]
          simp

theorem repInv_foldl (pts : Nat → P) :
    ∀ n, RepInv pts n ((List.range n).foldl (rep_step pts) ⟨[], [], 0⟩)
  | 0 => by simpa using repInv_init pts
  | n + 1 => by
    rw [List.range_succ, List.foldl_append]
    exact repInv_step (repInv_foldl pts n)

theorem repInv_rep_table (pts : Nat → P) (n : Nat) : RepInv pts n (rep_table pts n) :=
  repInv_foldl pts n

end RepInvariant

/-! ## The representative table: round trip, first occurrence, count -/

section RepClaims

variable {P : Type} [DecidableEq P]

theorem getElem?_lt_of_eq_some {α : Type} {l : List α} {k : Nat} {a : α}
    (h : l[k]? = some a) : k < l.length := by
  by_contra hge
  rw [List.getElem?_eq_none (Nat.le_of_not_lt hge)] at h
  cases h

theorem getD_of_getElem? {α : Type} {l : List α} {k : Nat} {a d : α}
    (h : l[k]? = some a) : l.getD k d = a := by
  rw [List.getD_eq_getElem?_getD, h]; rfl

/-- C1: for every array `pts` of `N` reference points the loop of
`interpolate` yields a table of length `N` whose entries are positions in the
representative list, the point of the representative of local dof `i` is the
point of `i`, and expanding the table through the representatives gives back
the original point list. -/
theorem dedup_round_trip (pts : Nat → P) (N : Nat) :
    (rep_table pts N).dof_to_rep_index_table.length = N ∧
    (∀ i, i < N → ∃ k r : Nat, (rep_table pts N).dof_to_rep_index_table[i]? = some k ∧
      k < (rep_table pts N).dofs_of_rep_points.length ∧
      (rep_table pts N).dofs_of_rep_points[k]? = some r ∧ pts r = pts i) ∧
    (rep_table pts N).dof_to_rep_index_table.map
      (fun k => pts ((rep_table pts N).dofs_of_rep_points.getD k 0)) = (List.range N).map pts := by
  have inv := repInv_rep_table pts N
  refine ⟨inv.tbl_length, ?_, ?_⟩
  · intro i hi
    obtain ⟨k, r, h1, h2, h3⟩ := inv.covers i hi
    exact ⟨k, r, h1, getElem?_lt_of_eq_some h2, h2, h3⟩
  · apply List.ext_getElem?
    intro i
    by_cases hi : i < N
    · obtain ⟨k, r, h1, h2, h3⟩ := inv.covers i hi
      rw [List.getElem?_map, h1, List.getElem?_map, List.getElem?_range hi]
      simp only [Option.map_some', getD_of_getElem? h2, h3]
    · have hi' : N ≤ i := Nat.le_of_not_lt hi
      rw [List.getElem?_eq_none (by simpa [inv.tbl_length] using hi'),
        List.getElem?_eq_none (by simpa using hi')]

/-- C2: for every local dof `i < N` the representative `r` recorded for `i`
is the smallest index whose point equals the point of `i`; when `i` is the
first dof at which its point occurs, `r = i`. -/
theorem first_occurrence_wins (pts : Nat → P) (N : Nat) (i : Nat) (hi : i < N) :
    ∃ k r : Nat, (rep_table pts N).dof_to_rep_index_table[i]? = some k ∧
      (rep_table pts N).dofs_of_rep_points[k]? = some r ∧
      pts r = pts i ∧ (∀ j, pts j = pts i → r ≤ j) ∧
      ((∀ j, j < i → pts j ≠ pts i) → r = i) := by
  have inv := repInv_rep_table pts N
  obtain ⟨k, r, h1, h2, h3⟩ := inv.covers i hi
  have hmin : ∀ j, pts j = pts i → r ≤ j := by
    intro j hj
    by_contra hlt
    exact (inv.first k r h2).2 j (Nat.lt_of_not_le hlt) (by rw [hj, h3])
  refine ⟨k, r, h1, h2, h3, hmin, ?_⟩
  intro hfirst
  have hle : r ≤ i := hmin i rfl
  rcases Nat.lt_or_eq_of_le hle with hlt | heq
  · exact absurd h3 (hfirst r hlt)
  · exact heq

/-- The witness of C2 on `example_points`: local dof `4` carries the point of
local dof `1`. -/
theorem first_occurrence_wins_witness :
    4 < 7 ∧ ∃ k r : Nat, (rep_table example_points 7).dof_to_rep_index_table[4]? = some k ∧
      (rep_table example_points 7).dofs_of_rep_points[k]? = some r ∧
      example_points r = example_points 4 ∧ (∀ j, example_points j = example_points 4 → r ≤ j) ∧
      ((∀ j, j < 4 → example_points j ≠ example_points 4) → r = 4) :=
  ⟨by decide, first_occurrence_wins example_points 7 4 (by decide)⟩

/-- C3: the points at the representative indices are pairwise different, and
`n_rep_points`, the length of the representative list, is the number of
distinct points among the `N` input points; it is at most `N`. -/
theorem rep_count_is_distinct_count (pts : Nat → P) (N : Nat) :
    List.Pairwise (fun a b => a ≠ b) ((rep_table pts N).dofs_of_rep_points.map pts) ∧
    (rep_table pts N).n_rep_points = (rep_table pts N).dofs_of_rep_points.length ∧
    (rep_table pts N).n_rep_points = ((Finset.range N).image pts).card ∧
    (rep_table pts N).n_rep_points ≤ N := by
  have inv := repInv_rep_table pts N
  have hset : ((rep_table pts N).dofs_of_rep_points.map pts).toFinset
      = (Finset.range N).image pts := by
    ext p
    simp only [List.mem_toFinset, List.mem_map, Finset.mem_image, Finset.mem_range]
    constructor
    · rintro ⟨r, hr, rfl⟩
      obtain ⟨k, hk, hkr⟩ := List.getElem_of_mem hr
      have hget : (rep_table pts N).dofs_of_rep_points[k]? = some r := by
        rw [List.getElem?_eq_getElem hk, hkr]
      exact ⟨r, (inv.first k r hget).1, rfl⟩
    · rintro ⟨i, hi, rfl⟩
      obtain ⟨k, r, -, h2, h3⟩ := inv.covers i hi
      exact ⟨r, List.getElem?_mem h2, h3⟩
  have hcard : (rep_table pts N).n_rep_points = ((Finset.range N).image pts).card := by
    rw [← hset, List.toFinset_card_of_nodup inv.nodup, List.length_map, inv.count]
  refine ⟨inv.nodup, inv.count, hcard, ?_⟩
  rw [hcard]
  exact (Finset.card_image_le).trans (by simp)

end RepClaims

/-! ## `interpolate`: the scatter loops -/

section InterpolateLemmas

variable {P X V : Type}

theorem interpolate_cell_eq (fe : FiniteElement P) (function : Function X V)
    (tbl : RepTable) (cell : Cell X) (s : VecState V) :
    interpolate_cell fe function tbl cell s =
      (List.range fe.dofs_per_cell).foldl
        (fun s i => s.assign (cell.dof_indices i) (scatter_value fe function tbl cell i))
        s.evaluated := by
  unfold interpolate_cell scatter_value
  by_cases h : fe.n_components = 1 <;> simp [h]

theorem foldl_assign (g : Nat → Nat) (x : Nat → V) :
    ∀ (l : List Nat) (s : VecState V),
      l.foldl (fun s i => s.assign (g i) (x i)) s =
        ⟨l.foldl (fun v i => v.set (g i) (x i)) s.vec,
          s.effects ++ l.map (fun i => Event.assign (g i))⟩
  | [], s => by simp
  | i :: l, s => by
    rw [List.foldl_cons, foldl_assign g x l]
    simp [VecState.assign]

theorem foldl_set_length (g : Nat → Nat) (x : Nat → V) :
    ∀ (l : List Nat) (v : List V),
      (l.foldl (fun v i => v.set (g i) (x i)) v).length = v.length
  | [], v => rfl
  | i :: l, v => by
    rw [List.foldl_cons, foldl_set_length g x l]
    simp

theorem foldl_set_get (g : Nat → Nat) (x : Nat → V) (g₀ : Nat) (x₀ : V) :
    ∀ (l : List Nat) (v : List V), (∀ i ∈ l, g i = g₀ → x i = x₀) →
      (v[g₀]? = some x₀ ∨ (g₀ < v.length ∧ ∃ i ∈ l, g i = g₀)) →
      (l.foldl (fun v i => v.set (g i) (x i)) v)[g₀]? = some x₀
  | [], v, _, h => by
    rcases h with h | ⟨-, i, hi, -⟩
    · exact h
    · cases hi
  | i :: l, v, hall, h => by
    rw [List.foldl_cons]
    apply foldl_set_get g x g₀ x₀ l
    · intro j hj
      exact hall j (List.mem_cons_of_mem _ hj)
    · by_cases hg : g i = g₀
      · have hlen : g₀ < v.length := by
          rcases h with h | ⟨h, -⟩
          · exact getElem?_lt_of_eq_some h
          · exact h
        left
        rw [hg, hall i (List.mem_cons_self _ _) hg]
        simp [List.getElem?_set, hlen]
      · rcases h with h | ⟨hlen, j, hj, hjg⟩
        · left
          rw [List.getElem?_set_ne hg]
          exact h
        · right
          refine ⟨by simpa using hlen, j, ?_, hjg⟩
          rcases List.mem_cons.mp hj with rfl | hj
          · exact absurd hjg hg
          · exact hj

theorem interpolate_cell_vec (fe : FiniteElement P) (function : Function X V)
    (tbl : RepTable) (cell : Cell X) (s : VecState V) :
    (interpolate_cell fe function tbl cell s).vec =
      (List.range fe.dofs_per_cell).foldl
        (fun v i => v.set (cell.dof_indices i) (scatter_value fe function tbl cell i)) s.vec := by
  rw [interpolate_cell_eq, foldl_assign]
  rfl

theorem interpolate_cell_effects (fe : FiniteElement P) (function : Function X V)
    (tbl : RepTable) (cell : Cell X) (s : VecState V) :
    (interpolate_cell fe function tbl cell s).effects =
      s.effects ++ Event.evaluate ::
        (List.range fe.dofs_per_cell).map (fun i => Event.assign (cell.dof_indices i)) := by
  rw [interpolate_cell_eq, foldl_assign]
  simp [VecState.evaluated]

theorem cells_vec_length (fe : FiniteElement P) (function : Function X V) (tbl : RepTable) :
    ∀ (cells : List (Cell X)) (s : VecState V),
      (cells.foldl (fun s cell => interpolate_cell fe function tbl cell s) s).vec.length
        = s.vec.length
  | [], s => rfl
  | cell :: cells, s => by
    rw [List.foldl_cons, cells_vec_length fe function tbl cells, interpolate_cell_vec,
      foldl_set_length]

theorem cells_vec_get (fe : FiniteElement P) (function : Function X V) (tbl : RepTable)
    (g₀ : Nat) (x₀ : V) :
    ∀ (cells : List (Cell X)) (s : VecState V),
      (∀ cell ∈ cells, ∀ i, i < fe.dofs_per_cell → cell.dof_indices i = g₀ →
        scatter_value fe function tbl cell i = x₀) →
      (s.vec[g₀]? = some x₀ ∨ (g₀ < s.vec.length ∧
        ∃ cell ∈ cells, ∃ i, i < fe.dofs_per_cell ∧ cell.dof_indices i = g₀)) →
      (cells.foldl (fun s cell => interpolate_cell fe function tbl cell s) s).vec[g₀]?
        = some x₀
  | [], s, _, h => by
    rcases h with h | ⟨-, cell, hc, -⟩
    · exact h
    · cases hc
  | cell :: cells, s, hall, h => by
    rw [List.foldl_cons]
    have hstep : ∀ i ∈ List.range fe.dofs_per_cell, cell.dof_indices i = g₀ →
        scatter_value fe function tbl cell i = x₀ := fun i hi =>
      hall cell (List.mem_cons_self _ _) i (List.mem_range.mp hi)
    apply cells_vec_get fe function tbl g₀ x₀ cells
    · intro c hc
      exact hall c (List.mem_cons_of_mem _ hc)
    · rw [interpolate_cell_vec]
      by_cases hex : ∃ i, i < fe.dofs_per_cell ∧ cell.dof_indices i = g₀
      · left
        obtain ⟨i, hi, hig⟩ := hex
        have hlen : g₀ < s.vec.length := by
          rcases h with h | ⟨h, -⟩
          · exact getElem?_lt_of_eq_some h
          · exact h
        exact foldl_set_get _ _ g₀ x₀ _ _ hstep
          (Or.inr ⟨hlen, i, List.mem_range.mpr hi, hig⟩)
      · rcases h with h | ⟨hlen, c, hc, i, hi, hig⟩
        · left
          exact foldl_set_get _ _ g₀ x₀ _ _ hstep (Or.inl h)
        · right
          refine ⟨by rw [foldl_set_length]; exact hlen, c, ?_, i, hi, hig⟩
          rcases List.mem_cons.mp hc with rfl | hc
          · exact absurd ⟨i, hi, hig⟩ hex
          · exact hc

theorem count_assign_map (g : Nat → Nat) (g₀ : Nat) :
    ∀ l : List Nat, (l.map (fun i => Event.assign (g i))).count (Event.assign g₀)
      = (l.filter (fun i => g i = g₀)).length
  | [] => rfl
  | i :: l => by
    by_cases h : g i = g₀
    · simp [List.filter_cons, h, count_assign_map g g₀ l]
    · simp [List.filter_cons, h, count_assign_map g g₀ l, List.count_cons]

theorem cells_effects_count (fe : FiniteElement P) (function : Function X V) (tbl : RepTable)
    (g₀ : Nat) :
    ∀ (cells : List (Cell X)) (s : VecState V),
      (cells.foldl (fun s cell => interpolate_cell fe function tbl cell s) s).effects.count
          (Event.assign g₀)
        = s.effects.count (Event.assign g₀) +
          (cells.map (fun cell => ((List.range fe.dofs_per_cell).filter
            (fun i => cell.dof_indices i = g₀)).length)).sum
  | [], s => by simp
  | cell :: cells, s => by
    rw [List.foldl_cons, cells_effects_count fe function tbl g₀ cells, interpolate_cell_effects,
      List.count_append, List.count_cons, count_assign_map]
    simp [Nat.add_assoc]

theorem interpolate_ok [DecidableEq P] (dof : DoFHandler P X) (function : Function X V)
    (vec : List V) (h : dof.fe.n_components = function.n_components) :
    interpolate dof function vec =
      (none, dof.active_cells.foldl
        (fun s cell => interpolate_cell dof.fe function
          (rep_table dof.fe.unit_support_points dof.fe.dofs_per_cell) cell s) ⟨vec, []⟩) := by
  have inv := repInv_rep_table dof.fe.unit_support_points dof.fe.dofs_per_cell
  unfold interpolate
  simp [h, inv.count, inv.tbl_length]

end InterpolateLemmas

/-! ## `interpolate`: the claims -/

section InterpolateClaims

variable {P X V : Type} [DecidableEq P]

theorem scatter_value_eq (dof : DoFHandler P X) (function : Function X V) (field : X → Nat → V)
    (hscalar : ∀ n points q, q < n → function.value_list n points 0 q = field (points q) 0)
    (hsystem : ∀ n points q c, q < n →
      function.vector_value_list n points q c = field (points q) c)
    (cell : Cell X)
    (hgeom : ∀ i j, i < dof.fe.dofs_per_cell → j < dof.fe.dofs_per_cell →
      dof.fe.unit_support_points i = dof.fe.unit_support_points j →
      cell.support_points i = cell.support_points j)
    (i : Nat) (hi : i < dof.fe.dofs_per_cell) :
    scatter_value dof.fe function
        (rep_table dof.fe.unit_support_points dof.fe.dofs_per_cell) cell i =
      field (cell.support_points i)
        (if dof.fe.n_components = 1 then 0 else (dof.fe.system_to_component_index i).1) := by
  have inv := repInv_rep_table dof.fe.unit_support_points dof.fe.dofs_per_cell
  obtain ⟨k, r, h1, h2, h3⟩ := inv.covers i hi
  have hk : k < (rep_table dof.fe.unit_support_points dof.fe.dofs_per_cell).n_rep_points := by
    rw [inv.count]; exact getElem?_lt_of_eq_some h2
  have hpt : cell.support_points r = cell.support_points i :=
    hgeom r i (inv.first k r h2).1 hi h3
  unfold scatter_value
  rw [getD_of_getElem? h1]
  by_cases hc : dof.fe.n_components = 1
  · simp only [hc, ne_eq, not_true_eq_false, if_false, if_true]
    rw [hscalar _ _ _ hk, getD_of_getElem? h2, hpt]
  · simp only [hc, ne_eq, not_false_eq_true, if_true, if_false]
    rw [hsystem _ _ _ _ hk, getD_of_getElem? h2, hpt]

/-- C4: when the batch evaluators of the field return the pointwise values of
`field`, the component counts agree, equal unit support points have equal
physical support points on every cell, and a global dof has the same
support point and component wherever it occurs, then after `interpolate`
every global dof that is local dof `i` of an active cell holds
`field (support point of i) (component of i)`, component `0` for a
one-component element. -/
theorem interpolate_pointwise (dof : DoFHandler P X) (function : Function X V)
    (field : X → Nat → V) (vec : List V)
    (hscalar : ∀ n points q, q < n → function.value_list n points 0 q = field (points q) 0)
    (hsystem : ∀ n points q c, q < n →
      function.vector_value_list n points q c = field (points q) c)
    (hcomp : dof.fe.n_components = function.n_components)
    (hgeom : ∀ cell ∈ dof.active_cells, ∀ i j, i < dof.fe.dofs_per_cell →
      j < dof.fe.dofs_per_cell →
      dof.fe.unit_support_points i = dof.fe.unit_support_points j →
      cell.support_points i = cell.support_points j)
    (hshared : ∀ cell ∈ dof.active_cells, ∀ cell' ∈ dof.active_cells, ∀ i i',
      i < dof.fe.dofs_per_cell → i' < dof.fe.dofs_per_cell →
      cell.dof_indices i = cell'.dof_indices i' →
      cell.support_points i = cell'.support_points i' ∧
      (dof.fe.system_to_component_index i).1 = (dof.fe.system_to_component_index i').1)
    (cell : Cell X) (hcell : cell ∈ dof.active_cells) (i : Nat)
    (hi : i < dof.fe.dofs_per_cell) (hrange : cell.dof_indices i < vec.length) :
    (interpolate dof function vec).1 = none ∧
    (interpolate dof function vec).2.vec[cell.dof_indices i]? =
      some (field (cell.support_points i)
        (if dof.fe.n_components = 1 then 0 else (dof.fe.system_to_component_index i).1)) := by
  rw [interpolate_ok dof function vec hcomp]
  refine ⟨rfl, ?_⟩
  apply cells_vec_get
  · intro cell' hcell' i' hi' hg
    rw [scatter_value_eq dof function field hscalar hsystem cell' (hgeom cell' hcell') i' hi']
    obtain ⟨hp, hc⟩ := hshared cell' hcell' cell hcell i' i hi' hi hg
    rw [hp, hc]
  · right
    exact ⟨hrange, cell, hcell, i, hi, rfl⟩

theorem rep_table_linear_1d :
    rep_table fe_linear_1d.unit_support_points fe_linear_1d.dofs_per_cell
      = ⟨[0, 1], [0, 1], 2⟩ := by
  simp [rep_table, rep_step, find_rep, fe_linear_1d, List.range_succ]

theorem mem_mesh_1d {cell : Cell ℚ} (h : cell ∈ mesh_1d.active_cells) :
    ∃ k : Nat, cell = cell_1d k := by
  simp only [mesh_1d, List.mem_cons, List.mem_singleton, List.not_mem_nil, or_false] at h
  rcases h with h | h | h | h
  exacts [⟨0, h⟩, ⟨1, h⟩, ⟨2, h⟩, ⟨3, h⟩]

/-- The witness of C4: on four unit linear elements on `[0,4]` the field
`f(x) = x` gets the coefficients `0, 1, 2, 3, 4`. -/
theorem interpolate_pointwise_witness :
    (interpolate mesh_1d field_x [0, 0, 0, 0, 0]).2.vec = [0, 1, 2, 3, 4] ∧
    (interpolate mesh_1d field_x [0, 0, 0, 0, 0]).1 = none ∧
    (interpolate mesh_1d field_x [0, 0, 0, 0, 0]).2.vec[3]? = some 3 := by
  have h := interpolate_pointwise mesh_1d field_x (fun x _ => x) [0, 0, 0, 0, 0]
    (fun _ _ _ _ => rfl) (fun _ _ _ _ _ => rfl) rfl
    (by
      intro cell hc i j _ _ hij
      obtain ⟨k, rfl⟩ := mem_mesh_1d hc
      have hij' : (i : ℚ) = (j : ℚ) := hij
      have : i = j := by exact_mod_cast hij'
      rw [this])
    (by
      intro cell hc cell' hc' i i' _ _ hg
      obtain ⟨k, rfl⟩ := mem_mesh_1d hc
      obtain ⟨k', rfl⟩ := mem_mesh_1d hc'
      have hg' : k + i = k' + i' := hg
      refine ⟨?_, rfl⟩
      show (k : ℚ) + (i : ℚ) = (k' : ℚ) + (i' : ℚ)
      exact_mod_cast hg')
    (cell_1d 2) (by simp [mesh_1d]) 1 (by decide) (by decide)
  have hvec : (interpolate mesh_1d field_x [0, 0, 0, 0, 0]).2.vec = [0, 1, 2, 3, 4] := by
    rw [interpolate_ok mesh_1d field_x _ rfl]
    have ht := rep_table_linear_1d
    simp only [mesh_1d] at ht ⊢
    simp only [List.foldl_cons, List.foldl_nil, interpolate_cell_vec, ht]
    simp [scatter_value, fe_linear_1d, cell_1d, field_x, scalar_field, List.range_succ]
    norm_num
  refine ⟨hvec, h.1, ?_⟩
  rw [hvec]
  rfl

theorem scatter_value_const (dof : DoFHandler P X) (function : Function X V) (c : V)
    (hfe : dof.fe.n_components = 1)
    (hconst : ∀ n points q, q < n → function.value_list n points 0 q = c)
    (cell : Cell X) (i : Nat) (hi : i < dof.fe.dofs_per_cell) :
    scatter_value dof.fe function
        (rep_table dof.fe.unit_support_points dof.fe.dofs_per_cell) cell i = c := by
  have inv := repInv_rep_table dof.fe.unit_support_points dof.fe.dofs_per_cell
  obtain ⟨k, r, h1, h2, -⟩ := inv.covers i hi
  have hk : k < (rep_table dof.fe.unit_support_points dof.fe.dofs_per_cell).n_rep_points := by
    rw [inv.count]; exact getElem?_lt_of_eq_some h2
  unfold scatter_value
  rw [getD_of_getElem? h1]
  simp only [hfe, ne_eq, not_true_eq_false, if_false]
  exact hconst _ _ _ hk

/-- C5: for a one-component element and a scalar field whose evaluator
returns the constant `c` at every point, `interpolate` returns normally, keeps
the size of the coefficient vector, and every entry that is a degree of
freedom of the mesh equals `c`; when every entry of the vector is a degree of
freedom of the mesh, the whole vector consists of `c`. -/
theorem interpolate_constant (dof : DoFHandler P X) (function : Function X V) (c : V)
    (vec : List V) (hfe : dof.fe.n_components = 1) (hfn : function.n_components = 1)
    (hconst : ∀ n points q, q < n → function.value_list n points 0 q = c) :
    (interpolate dof function vec).1 = none ∧
    (interpolate dof function vec).2.vec.length = vec.length ∧
    (∀ g, g < vec.length →
      (∃ cell ∈ dof.active_cells, ∃ i, i < dof.fe.dofs_per_cell ∧ cell.dof_indices i = g) →
      (interpolate dof function vec).2.vec[g]? = some c) ∧
    ((∀ g, g < vec.length →
        ∃ cell ∈ dof.active_cells, ∃ i, i < dof.fe.dofs_per_cell ∧ cell.dof_indices i = g) →
      (interpolate dof function vec).2.vec = List.replicate vec.length c) := by
  have hcomp : dof.fe.n_components = function.n_components := by rw [hfe, hfn]
  rw [interpolate_ok dof function vec hcomp]
  have hlen := cells_vec_length dof.fe function
    (rep_table dof.fe.unit_support_points dof.fe.dofs_per_cell) dof.active_cells ⟨vec, []⟩
  have hentry : ∀ g, g < vec.length →
      (∃ cell ∈ dof.active_cells, ∃ i, i < dof.fe.dofs_per_cell ∧ cell.dof_indices i = g) →
      (dof.active_cells.foldl (fun s cell => interpolate_cell dof.fe function
        (rep_table dof.fe.unit_support_points dof.fe.dofs_per_cell) cell s)
          ⟨vec, []⟩).vec[g]? = some c := by
    intro g hg hex
    apply cells_vec_get
    · intro cell _ i hi _
      exact scatter_value_const dof function c hfe hconst cell i hi
    · right
      exact ⟨hg, hex⟩
  refine ⟨rfl, hlen, hentry, ?_⟩
  intro hcover
  apply List.ext_getElem?
  intro g
  by_cases hg : g < vec.length
  · rw [hentry g hg (hcover g hg), List.getElem?_replicate]
    simp [hg]
  · have hg' : vec.length ≤ g := Nat.le_of_not_lt hg
    rw [List.getElem?_eq_none (by rw [hlen]; exact hg'),
      List.getElem?_eq_none (by simpa using hg')]

/-- The witness of C5: the constant field `7` on the four linear elements of
`[0,4]`. -/
theorem interpolate_constant_witness :
    (interpolate mesh_1d (scalar_field (fun _ : ℚ => (7 : ℚ)) (fun _ _ => 0))
      [0, 0, 0, 0, 0]).2.vec = [7, 7, 7, 7, 7] := by
  have h := interpolate_constant mesh_1d (scalar_field (fun _ : ℚ => (7 : ℚ)) (fun _ _ => 0))
    7 [0, 0, 0, 0, 0] rfl rfl (fun _ _ _ _ => rfl)
  refine h.2.2.2 ?_
  intro g hg
  have hg5 : g < 5 := hg
  by_cases h4 : g < 4
  · exact ⟨cell_1d g, by simp only [mesh_1d]; interval_cases g <;> simp, 0, by decide,
      by simp [cell_1d]⟩
  · have : g = 4 := by omega
    subst this
    exact ⟨cell_1d 3, by simp [mesh_1d], 1, by decide, rfl⟩

/-- C6: `interpolate` raises `ExcComponentMismatch` exactly when the component
counts of the element and of the field differ; in that case the coefficient
vector is the one passed in and no effect (assignment or evaluation of the
field) has been performed; otherwise no exception is raised. -/
theorem interpolate_component_mismatch (dof : DoFHandler P X) (function : Function X V)
    (vec : List V) :
    ((interpolate dof function vec).1 = some Exc.ExcComponentMismatch ↔
      dof.fe.n_components ≠ function.n_components) ∧
    (dof.fe.n_components ≠ function.n_components →
      (interpolate dof function vec).2 = ⟨vec, []⟩) ∧
    (dof.fe.n_components = function.n_components →
      (interpolate dof function vec).1 = none) := by
  by_cases h : dof.fe.n_components = function.n_components
  · rw [interpolate_ok dof function vec h]
    simp [h]
  · simp [interpolate, h]

omit [DecidableEq P] in
theorem occurrences_pos (dof : DoFHandler P X) (g : Nat) :
    0 < occurrences dof g ↔
      ∃ cell ∈ dof.active_cells, ∃ i, i < dof.fe.dofs_per_cell ∧ cell.dof_indices i = g := by
  unfold occurrences
  rw [Nat.pos_iff_ne_zero, Ne, List.sum_eq_zero_iff]
  simp only [List.mem_map, forall_exists_index, and_imp, forall_apply_eq_imp_iff₂,
    List.length_eq_zero, List.filter_eq_nil_iff, List.mem_range, decide_eq_true_eq]
  push_neg
  rfl

/-- C7 as stated fails: on the four linear elements of `[0,4]` the node `1`,
shared by the first two cells, is assigned twice in one pass. -/
theorem interpolate_assigns_shared_dof_twice :
    (interpolate mesh_1d field_x [0, 0, 0, 0, 0]).2.effects.count (Event.assign 1) = 2 ∧
    ¬ (∀ g, g < 5 →
      (interpolate mesh_1d field_x [0, 0, 0, 0, 0]).2.effects.count (Event.assign g) = 1) := by
  have h2 : (interpolate mesh_1d field_x [0, 0, 0, 0, 0]).2.effects.count (Event.assign 1)
      = 2 := by
    rw [interpolate_ok mesh_1d field_x _ rfl, cells_effects_count]
    simp [mesh_1d, cell_1d, fe_linear_1d, List.range_succ, List.filter_cons]
  refine ⟨h2, ?_⟩
  intro hall
  have h1 := hall 1 (by decide)
  rw [h2] at h1
  exact absurd h1 (by decide)

/-- C7, amended: the number of assignments `vec(g) = ...` of one pass is the
number of pairs of an active cell and a local dof of it that carry the
global dof `g` (no assignment at all when the component counts differ); it
is positive exactly for the global dofs that belong to an active cell. -/
theorem interpolate_assignment_count (dof : DoFHandler P X) (function : Function X V)
    (vec : List V) (g : Nat) :
    (interpolate dof function vec).2.effects.count (Event.assign g) =
      (if dof.fe.n_components = function.n_components then occurrences dof g else 0) ∧
    (0 < occurrences dof g ↔
      ∃ cell ∈ dof.active_cells, ∃ i, i < dof.fe.dofs_per_cell ∧ cell.dof_indices i = g) := by
  refine ⟨?_, occurrences_pos dof g⟩
  by_cases h : dof.fe.n_components = function.n_components
  · rw [interpolate_ok dof function vec h, cells_effects_count, if_pos h]
    simp [occurrences]
  · simp [interpolate, h]

end InterpolateClaims

/-! ## `integrate_difference`: the kernels and the cell loop -/

section DifferenceLemmas

variable {R : Type} [LinearOrderedField R] {X : Type}

theorem foldl_add_eq_sum (f : Nat → R) (init : R) :
    ∀ n, (List.range n).foldl (fun acc q => acc + f q) init = init + ∑ q ∈ Finset.range n, f q
  | 0 => by simp
  | n + 1 => by
    rw [List.range_succ, List.foldl_append, foldl_add_eq_sum f init n, Finset.sum_range_succ]
    simp [add_assoc]

theorem inner_product_eq (n : Nat) (a b : Nat → R) (init : R) :
    inner_product n a b init = init + ∑ q ∈ Finset.range n, a q * b q :=
  foldl_add_eq_sum (fun q => a q * b q) init n

theorem norm_sqr_eq (n : Nat) (v : Nat → R) :
    norm_sqr n v = ∑ c ∈ Finset.range n, v c ^ 2 := by
  unfold norm_sqr
  rw [foldl_add_eq_sum (fun c => v c * v c) 0 n, zero_add]
  exact Finset.sum_congr rfl (fun c _ => (sq (v c)).symm)

theorem max_element_succ (n : Nat) (a : Nat → R) :
    max_element (n + 1) a =
      if a (max_element n a) < a n then n else max_element n a := by
  unfold max_element
  rw [List.range_succ, List.foldl_append]
  rfl

theorem max_element_spec (a : Nat → R) :
    ∀ n, max_element (n + 1) a < n + 1 ∧ ∀ q, q < n + 1 → a q ≤ a (max_element (n + 1) a)
  | 0 => by
    have h0 : max_element 1 a = 0 := by
      rw [max_element_succ]
      simp [max_element]
    rw [h0]
    refine ⟨Nat.zero_lt_one, ?_⟩
    intro q hq
    have : q = 0 := by omega
    rw [this]
  | n + 1 => by
    obtain ⟨hlt, hmax⟩ := max_element_spec a n
    rw [max_element_succ (n + 1)]
    split
    · rename_i hgt
      refine ⟨Nat.lt_succ_self _, ?_⟩
      intro q hq
      rcases Nat.lt_succ_iff_lt_or_eq.mp hq with hq' | rfl
      · exact le_of_lt (lt_of_le_of_lt (hmax q hq') hgt)
      · exact le_refl _
    · rename_i hngt
      refine ⟨Nat.lt_succ_of_lt hlt, ?_⟩
      intro q hq
      rcases Nat.lt_succ_iff_lt_or_eq.mp hq with hq' | rfl
      · exact hmax q hq'
      · exact not_lt.mp hngt

theorem max_element_eq_sup (a : Nat → R) (n : Nat) (h : 0 < n) :
    max_element n a < n ∧
    a (max_element n a) = (Finset.range n).sup' ⟨0, Finset.mem_range.mpr h⟩ a := by
  obtain ⟨m, rfl⟩ : ∃ m, n = m + 1 := ⟨n - 1, by omega⟩
  obtain ⟨hlt, hmax⟩ := max_element_spec a m
  refine ⟨hlt, le_antisymm (Finset.le_sup' a (Finset.mem_range.mpr hlt)) ?_⟩
  exact Finset.sup'_le _ _ (fun q hq => hmax q (Finset.mem_range.mp hq))

/-- The cell loop returns the list of the per-cell values `d` when every cell
body, started with an array `psi_scalar` that satisfies `I`, returns the
value `d` of its cell and an array that satisfies `I` again. -/
theorem integrate_difference_loop_eq (sqrt : R → R) (dim n_components n_q_points : Nat)
    (exact_solution : Function X R) (norm : NormType) (weight : Option (Function X R))
    (I : (Nat → R) → Prop) (d : FEValuesCell X R → R)
    (hcell : ∀ fe_values psi_scalar, I psi_scalar → ∃ psi_scalar₂,
      integrate_difference_cell sqrt dim n_components n_q_points exact_solution norm weight
        fe_values psi_scalar = Except.ok (d fe_values, psi_scalar₂) ∧ I psi_scalar₂) :
    ∀ (cells : List (FEValuesCell X R)) (psi_scalar : Nat → R), I psi_scalar →
      integrate_difference_loop sqrt dim n_components n_q_points exact_solution norm weight
        cells psi_scalar = Except.ok (cells.map d)
  | [], _, _ => rfl
  | fe_values :: cells, psi_scalar, h => by
    obtain ⟨psi_scalar₂, h1, h2⟩ := hcell fe_values psi_scalar h
    unfold integrate_difference_loop
    rw [h1]
    simp only
    rw [integrate_difference_loop_eq sqrt dim n_components n_q_points exact_solution norm
      weight I d hcell cells psi_scalar₂ h2]
    rfl

omit [LinearOrderedField R] in
theorem exact_values_apply (n_components n_q_points : Nat) (exact_solution : Function X R)
    (fe_values : FEValuesCell X R) (q c : Nat) :
    exact_values n_components n_q_points exact_solution fe_values q c =
      if n_components ≠ 1 then
        exact_solution.vector_value_list n_q_points fe_values.quadrature_points q c
      else
        exact_solution.value_list n_q_points fe_values.quadrature_points 0 q := by
  unfold exact_values
  split <;> rfl

end DifferenceLemmas

/-! ## `integrate_difference`: the claims -/

section DifferenceClaims

variable {R : Type} [LinearOrderedField R] {X : Type}

/-- C8, amended: for `Linfty_norm` without weight and at least one quadrature
point, the value of each cell is the largest, over the quadrature points `q`,
of `sqrt (‖ψ_q‖²)`, where `ψ_q` is the exact value minus the finite element
value and `‖ψ_q‖²` the sum of the squares of its components: the square root
is taken at every point before the maximum. -/
theorem integrate_difference_Linfty (sqrt : R → R) (dim n_components n_q_points : Nat)
    (cells : List (FEValuesCell X R)) (exact_solution : Function X R)
    (hq : 0 < n_q_points) :
    integrate_difference sqrt dim n_components n_q_points cells exact_solution
        NormType.Linfty_norm none =
      Except.ok (cells.map (fun fe_values =>
        (Finset.range n_q_points).sup' ⟨0, Finset.mem_range.mpr hq⟩
          (fun q => sqrt (∑ c ∈ Finset.range n_components,
            (exact_values n_components n_q_points exact_solution fe_values q c
              - fe_values.function_values q c) ^ 2)))) := by
  unfold integrate_difference
  rw [if_neg (by simp)]
  apply integrate_difference_loop_eq sqrt dim n_components n_q_points exact_solution
    NormType.Linfty_norm none (fun _ => True)
  · intro fe_values psi_scalar _
    refine ⟨fun q => sqrt (norm_sqr n_components (fun c =>
      exact_values n_components n_q_points exact_solution fe_values q c
        - fe_values.function_values q c)), ?_, trivial⟩
    simp only [integrate_difference_cell, values_block]
    obtain ⟨hlt, heq⟩ := max_element_eq_sup
      (fun q => sqrt (norm_sqr n_components (fun c =>
        exact_values n_components n_q_points exact_solution fe_values q c
          - fe_values.function_values q c))) n_q_points hq
    rw [if_pos hlt, heq]
    simp only [norm_sqr_eq]
  · trivial

/-- The witness of C8: one quadrature point at which `ψ = 2`, so that
`‖ψ‖² = 4`; the value of the cell is `sqrt 4 = 2`. -/
theorem integrate_difference_Linfty_witness :
    0 < 1 ∧
    integrate_difference Real.sqrt 1 1 1 [unit_cell] field_two NormType.Linfty_norm none
      = Except.ok [2] := by
  refine ⟨Nat.one_pos, ?_⟩
  rw [integrate_difference_Linfty Real.sqrt 1 1 1 [unit_cell] field_two Nat.one_pos]
  have h : Real.sqrt (2 ^ 2) = 2 := Real.sqrt_sq (by norm_num)
  simp [exact_values, field_two, scalar_field, unit_cell, h]

/-- C8 as stated fails: on a cell with one quadrature point at which
`‖ψ‖² = 4`, `Linfty_norm` without weight gives `2`, not `4`. -/
theorem integrate_difference_Linfty_not_squared :
    (∑ c ∈ Finset.range 1,
      (exact_values 1 1 (field_two : Function Unit ℝ) unit_cell 0 c
        - (unit_cell : FEValuesCell Unit ℝ).function_values 0 c) ^ 2 = 4) ∧
    integrate_difference Real.sqrt 1 1 1 [unit_cell] field_two NormType.Linfty_norm none
      = Except.ok [2] ∧
    integrate_difference Real.sqrt 1 1 1 [unit_cell] field_two NormType.Linfty_norm none
      ≠ Except.ok [4] := by
  have h : Real.sqrt (2 * 2) = 2 := Real.sqrt_mul_self (by norm_num)
  have hval : integrate_difference Real.sqrt 1 1 1 [unit_cell] field_two
      NormType.Linfty_norm none = Except.ok [2] := by
    simp [integrate_difference, integrate_difference_loop, integrate_difference_cell,
      values_block, max_element, norm_sqr, exact_values, field_two, scalar_field, unit_cell,
      List.range_succ, h]
  refine ⟨?_, hval, ?_⟩
  · simp [exact_values, field_two, scalar_field, unit_cell]
    norm_num
  · rw [hval]
    intro h4
    have : (2 : ℝ) = 4 := by
      injection h4 with h4
      injection h4
    norm_num at this

/-- C9: for `mean` on an element with at least two components the value of
every cell is `0`, whatever the exact solution, the finite element function,
the quadrature weights and the weight function are: `psi_scalar` is never
assigned.  On `unit_cell` with the exact solution `(1, 0)`, where the
difference integrates to `1`, the result is `0`. -/
theorem integrate_difference_mean_is_zero :
    (∀ (R : Type) [LinearOrderedField R] (X : Type) (sqrt : R → R)
      (dim n n_q_points : Nat) (cells : List (FEValuesCell X R))
      (exact_solution : Function X R) (weight : Option (Function X R)),
      integrate_difference sqrt dim (n + 2) n_q_points cells exact_solution NormType.mean
        weight = Except.ok (List.replicate cells.length 0)) ∧
    integrate_difference (fun x : ℚ => x) 1 2 1 [unit_cell] field_one_zero NormType.mean none
      = Except.ok [0] ∧
    ∑ q ∈ Finset.range 1, (exact_values 2 1 (field_one_zero : Function Unit ℚ) unit_cell q 0
      - (unit_cell : FEValuesCell Unit ℚ).function_values q 0)
        * (unit_cell : FEValuesCell Unit ℚ).JxW_values q = 1 := by
  have hgen : ∀ (R : Type) [LinearOrderedField R] (X : Type) (sqrt : R → R)
      (dim n n_q_points : Nat) (cells : List (FEValuesCell X R))
      (exact_solution : Function X R) (weight : Option (Function X R)),
      integrate_difference sqrt dim (n + 2) n_q_points cells exact_solution NormType.mean
        weight = Except.ok (List.replicate cells.length 0) := by
    intro R _ X sqrt dim n n_q_points cells exact_solution weight
    unfold integrate_difference
    rw [if_neg (by simp)]
    rw [integrate_difference_loop_eq sqrt dim (n + 2) n_q_points exact_solution
      NormType.mean weight (fun psi => ∀ q, psi q = 0) (fun _ => 0) ?_ cells (fun _ => 0)
      (fun _ => rfl)]
    · simp
    · intro fe_values psi_scalar hpsi
      cases weight with
      | none =>
        refine ⟨psi_scalar, ?_, hpsi⟩
        simp only [integrate_difference_cell, values_block, inner_product_eq]
        simp [hpsi]
      | some w =>
        refine ⟨fun q => psi_scalar q * w.value_list n_q_points fe_values.quadrature_points 0 q,
          ?_, fun q => by simp [hpsi]⟩
        simp only [integrate_difference_cell, values_block, inner_product_eq]
        simp [hpsi]
  refine ⟨hgen, ?_, ?_⟩
  · exact hgen ℚ Unit (fun x => x) 1 0 1 [unit_cell] field_one_zero none
  · simp [exact_values, field_one_zero, unit_cell]

end DifferenceClaims

/-! ## `integrate_difference`: closed forms for every norm and optional weight -/

section DifferenceForms

variable {R : Type} [LinearOrderedField R] {X : Type}

theorem sqr_point_eq (dim : Nat) (p : Nat → R) :
    sqr_point dim p = ∑ d ∈ Finset.range dim, p d ^ 2 := by
  unfold sqr_point
  rw [foldl_add_eq_sum (fun d => p d * p d) 0 dim, zero_add]
  exact Finset.sum_congr rfl (fun d _ => (sq (p d)).symm)

theorem gradients_block_eq (sqrt : R → R) (dim n_components n_q_points : Nat)
    (exact_solution : Function X R) (weight : Option (Function X R))
    (fe_values : FEValuesCell X R) (diff : R) :
    gradients_block sqrt dim n_components n_q_points exact_solution weight fe_values diff =
      sqrt (diff + ∑ q ∈ Finset.range n_q_points,
        (∑ c ∈ Finset.range n_components, ∑ d ∈ Finset.range dim,
          (exact_grads n_components n_q_points exact_solution fe_values q c d
            - fe_values.function_grads q c d) ^ 2)
          * weight_factor weight n_q_points fe_values q * fe_values.JxW_values q) := by
  unfold gradients_block
  cases weight with
  | none =>
    simp only [inner_product_eq, zero_add, weight_factor, mul_one, exact_grads]
    congr 2
    apply Finset.sum_congr rfl
    intro q _
    rw [foldl_add_eq_sum, zero_add]
    simp only [sqr_point_eq]
  | some w =>
    simp only [inner_product_eq, zero_add, weight_factor, exact_grads]
    congr 2
    apply Finset.sum_congr rfl
    intro q _
    rw [foldl_add_eq_sum, zero_add]
    simp only [sqr_point_eq]

/-- The array `psi_scalar` after lines 816-844 for the norms that assign
it. -/
theorem values_block_forms (sqrt : R → R) (n_components n_q_points : Nat)
    (exact_solution : Function X R) (weight : Option (Function X R))
    (fe_values : FEValuesCell X R) (psi_scalar : Nat → R) :
    (∃ psi, values_block sqrt n_components n_q_points exact_solution NormType.L1_norm weight
      fe_values psi_scalar = Except.ok
        (∑ q ∈ Finset.range n_q_points,
          sqrt (∑ c ∈ Finset.range n_components,
            (exact_values n_components n_q_points exact_solution fe_values q c
              - fe_values.function_values q c) ^ 2)
            * weight_factor weight n_q_points fe_values q * fe_values.JxW_values q, psi)) ∧
    (∃ psi, values_block sqrt n_components n_q_points exact_solution NormType.L2_norm weight
      fe_values psi_scalar = Except.ok
        (sqrt (∑ q ∈ Finset.range n_q_points,
          (∑ c ∈ Finset.range n_components,
            (exact_values n_components n_q_points exact_solution fe_values q c
              - fe_values.function_values q c) ^ 2)
            * weight_factor weight n_q_points fe_values q * fe_values.JxW_values q), psi)) ∧
    (∃ psi, values_block sqrt n_components n_q_points exact_solution NormType.H1_norm weight
      fe_values psi_scalar = Except.ok
        (∑ q ∈ Finset.range n_q_points,
          (∑ c ∈ Finset.range n_components,
            (exact_values n_components n_q_points exact_solution fe_values q c
              - fe_values.function_values q c) ^ 2)
            * weight_factor weight n_q_points fe_values q * fe_values.JxW_values q, psi)) ∧
    (∀ hq : 0 < n_q_points,
      ∃ psi, values_block sqrt n_components n_q_points exact_solution NormType.Linfty_norm
        weight fe_values psi_scalar = Except.ok
          ((Finset.range n_q_points).sup' ⟨0, Finset.mem_range.mpr hq⟩
            (fun q => sqrt (∑ c ∈ Finset.range n_components,
              (exact_values n_components n_q_points exact_solution fe_values q c
                - fe_values.function_values q c) ^ 2)
              * weight_factor weight n_q_points fe_values q), psi)) := by
  refine ⟨?_, ?_, ?_, ?_⟩
  · cases weight <;>
      exact ⟨_, by
        simp only [values_block, inner_product_eq, norm_sqr_eq, zero_add, weight_factor,
          mul_one]
        rfl⟩
  · cases weight <;>
      exact ⟨_, by
        simp only [values_block, inner_product_eq, norm_sqr_eq, zero_add, weight_factor,
          mul_one]
        rfl⟩
  · cases weight <;>
      exact ⟨_, by
        simp only [values_block, inner_product_eq, norm_sqr_eq, zero_add, weight_factor,
          mul_one]
        rfl⟩
  · intro hq
    cases weight with
    | none =>
      obtain ⟨hlt, heq⟩ := max_element_eq_sup
        (fun q => sqrt (norm_sqr n_components (fun c =>
          exact_values n_components n_q_points exact_solution fe_values q c
            - fe_values.function_values q c))) n_q_points hq
      refine ⟨fun q => sqrt (norm_sqr n_components (fun c =>
        exact_values n_components n_q_points exact_solution fe_values q c
          - fe_values.function_values q c)), ?_⟩
      simp only [values_block]
      rw [if_pos hlt, heq]
      simp only [norm_sqr_eq, weight_factor, mul_one]
    | some w =>
      obtain ⟨hlt, heq⟩ := max_element_eq_sup
        (fun q => sqrt (norm_sqr n_components (fun c =>
          exact_values n_components n_q_points exact_solution fe_values q c
            - fe_values.function_values q c))
          * w.value_list n_q_points fe_values.quadrature_points 0 q) n_q_points hq
      refine ⟨fun q => sqrt (norm_sqr n_components (fun c =>
        exact_values n_components n_q_points exact_solution fe_values q c
          - fe_values.function_values q c))
        * w.value_list n_q_points fe_values.quadrature_points 0 q, ?_⟩
      simp only [values_block]
      rw [if_pos hlt, heq]
      simp only [norm_sqr_eq, weight_factor]

end DifferenceForms

/-! ## `integrate_difference`: the result for every norm and optional weight -/

section DifferenceResults

variable {R : Type} [LinearOrderedField R] {X : Type}

theorem difference_L1_form (sqrt : R → R) (dim n_components n_q_points : Nat)
    (cells : List (FEValuesCell X R)) (exact_solution : Function X R)
    (weight : Option (Function X R)) :
    integrate_difference sqrt dim n_components n_q_points cells exact_solution
        NormType.L1_norm weight =
      Except.ok (cells.map (fun fe_values =>
        ∑ q ∈ Finset.range n_q_points,
          sqrt (∑ c ∈ Finset.range n_components,
            (exact_values n_components n_q_points exact_solution fe_values q c
              - fe_values.function_values q c) ^ 2)
            * weight_factor weight n_q_points fe_values q * fe_values.JxW_values q)) := by
  unfold integrate_difference
  rw [if_neg (by simp)]
  apply integrate_difference_loop_eq sqrt dim n_components n_q_points exact_solution
    NormType.L1_norm weight (fun _ => True)
  · intro fe_values psi_scalar _
    obtain ⟨psi, h⟩ := (values_block_forms sqrt n_components n_q_points exact_solution weight
      fe_values psi_scalar).1
    exact ⟨psi, by simpa only [integrate_difference_cell] using h, trivial⟩
  · trivial

theorem difference_L2_form (sqrt : R → R) (dim n_components n_q_points : Nat)
    (cells : List (FEValuesCell X R)) (exact_solution : Function X R)
    (weight : Option (Function X R)) :
    integrate_difference sqrt dim n_components n_q_points cells exact_solution
        NormType.L2_norm weight =
      Except.ok (cells.map (fun fe_values =>
        sqrt (∑ q ∈ Finset.range n_q_points,
          (∑ c ∈ Finset.range n_components,
            (exact_values n_components n_q_points exact_solution fe_values q c
              - fe_values.function_values q c) ^ 2)
            * weight_factor weight n_q_points fe_values q * fe_values.JxW_values q))) := by
  unfold integrate_difference
  rw [if_neg (by simp)]
  apply integrate_difference_loop_eq sqrt dim n_components n_q_points exact_solution
    NormType.L2_norm weight (fun _ => True)
  · intro fe_values psi_scalar _
    obtain ⟨psi, h⟩ := (values_block_forms sqrt n_components n_q_points exact_solution weight
      fe_values psi_scalar).2.1
    exact ⟨psi, by simpa only [integrate_difference_cell] using h, trivial⟩
  · trivial

theorem difference_Linfty_form (sqrt : R → R) (dim n_components n_q_points : Nat)
    (cells : List (FEValuesCell X R)) (exact_solution : Function X R)
    (weight : Option (Function X R)) (hq : 0 < n_q_points) :
    integrate_difference sqrt dim n_components n_q_points cells exact_solution
        NormType.Linfty_norm weight =
      Except.ok (cells.map (fun fe_values =>
        (Finset.range n_q_points).sup' ⟨0, Finset.mem_range.mpr hq⟩
          (fun q => sqrt (∑ c ∈ Finset.range n_components,
            (exact_values n_components n_q_points exact_solution fe_values q c
              - fe_values.function_values q c) ^ 2)
            * weight_factor weight n_q_points fe_values q))) := by
  unfold integrate_difference
  rw [if_neg (by simp)]
  apply integrate_difference_loop_eq sqrt dim n_components n_q_points exact_solution
    NormType.Linfty_norm weight (fun _ => True)
  · intro fe_values psi_scalar _
    obtain ⟨psi, h⟩ := (values_block_forms sqrt n_components n_q_points exact_solution weight
      fe_values psi_scalar).2.2.2 hq
    exact ⟨psi, by simpa only [integrate_difference_cell] using h, trivial⟩
  · trivial

theorem difference_H1_seminorm_form (sqrt : R → R) (dim n_components n_q_points : Nat)
    (cells : List (FEValuesCell X R)) (exact_solution : Function X R)
    (weight : Option (Function X R)) :
    integrate_difference sqrt dim n_components n_q_points cells exact_solution
        NormType.H1_seminorm weight =
      Except.ok (cells.map (fun fe_values =>
        sqrt (∑ q ∈ Finset.range n_q_points,
          (∑ c ∈ Finset.range n_components, ∑ d ∈ Finset.range dim,
            (exact_grads n_components n_q_points exact_solution fe_values q c d
              - fe_values.function_grads q c d) ^ 2)
            * weight_factor weight n_q_points fe_values q * fe_values.JxW_values q))) := by
  unfold integrate_difference
  rw [if_neg (by simp)]
  apply integrate_difference_loop_eq sqrt dim n_components n_q_points exact_solution
    NormType.H1_seminorm weight (fun _ => True)
  · intro fe_values psi_scalar _
    refine ⟨psi_scalar, ?_, trivial⟩
    simp only [integrate_difference_cell, gradients_block_eq, zero_add]
  · trivial

theorem difference_H1_norm_form (sqrt : R → R) (dim n_components n_q_points : Nat)
    (cells : List (FEValuesCell X R)) (exact_solution : Function X R)
    (weight : Option (Function X R)) :
    integrate_difference sqrt dim n_components n_q_points cells exact_solution
        NormType.H1_norm weight =
      Except.ok (cells.map (fun fe_values =>
        sqrt ((∑ q ∈ Finset.range n_q_points,
          (∑ c ∈ Finset.range n_components,
            (exact_values n_components n_q_points exact_solution fe_values q c
              - fe_values.function_values q c) ^ 2)
            * weight_factor weight n_q_points fe_values q * fe_values.JxW_values q)
          + ∑ q ∈ Finset.range n_q_points,
          (∑ c ∈ Finset.range n_components, ∑ d ∈ Finset.range dim,
            (exact_grads n_components n_q_points exact_solution fe_values q c d
              - fe_values.function_grads q c d) ^ 2)
            * weight_factor weight n_q_points fe_values q * fe_values.JxW_values q))) := by
  unfold integrate_difference
  rw [if_neg (by simp)]
  apply integrate_difference_loop_eq sqrt dim n_components n_q_points exact_solution
    NormType.H1_norm weight (fun _ => True)
  · intro fe_values psi_scalar _
    obtain ⟨psi, h⟩ := (values_block_forms sqrt n_components n_q_points exact_solution weight
      fe_values psi_scalar).2.2.1
    refine ⟨psi, ?_, trivial⟩
    simp only [integrate_difference_cell, h, gradients_block_eq]
  · trivial

theorem difference_mean_form (sqrt : R → R) (dim n_components n_q_points : Nat)
    (cells : List (FEValuesCell X R)) (exact_solution : Function X R)
    (weight : Option (Function X R)) (hnc : n_components ≠ 1) :
    integrate_difference sqrt dim n_components n_q_points cells exact_solution
        NormType.mean weight = Except.ok (cells.map (fun _ => 0)) := by
  unfold integrate_difference
  rw [if_neg (by simp [hnc])]
  apply integrate_difference_loop_eq sqrt dim n_components n_q_points exact_solution
    NormType.mean weight (fun psi => ∀ q, psi q = 0)
  · intro fe_values psi_scalar hpsi
    cases weight with
    | none =>
      refine ⟨psi_scalar, ?_, hpsi⟩
      simp only [integrate_difference_cell, values_block, inner_product_eq]
      simp [hpsi]
    | some w =>
      refine ⟨fun q => psi_scalar q * w.value_list n_q_points fe_values.quadrature_points 0 q,
        ?_, fun q => by simp [hpsi]⟩
      simp only [integrate_difference_cell, values_block, inner_product_eq]
      simp [hpsi]
  · intro q
    rfl

end DifferenceResults

/-! ## `integrate_difference`: the norms one by one -/

section NormClaims

variable {R : Type} [LinearOrderedField R] {X : Type}

/-- C10: for `L2_norm` without weight the value of each cell is
`sqrt (Σ_q ‖ψ_q‖² · JxW_q)`, where `ψ_q` is the value of the exact solution at
the quadrature point `q` (the entry `q` of `vector_value_list` for a system
element, of `value_list` for a one-component element) minus the value of the
finite element function there, and `‖ψ_q‖²` is the sum of the squares of its
components. -/
theorem integrate_difference_L2 (sqrt : R → R) (dim n_components n_q_points : Nat)
    (cells : List (FEValuesCell X R)) (exact_solution : Function X R) :
    integrate_difference sqrt dim n_components n_q_points cells exact_solution
        NormType.L2_norm none =
      Except.ok (cells.map (fun fe_values =>
        sqrt (∑ q ∈ Finset.range n_q_points,
          (∑ c ∈ Finset.range n_components,
            ((if n_components ≠ 1 then
                exact_solution.vector_value_list n_q_points fe_values.quadrature_points q c
              else
                exact_solution.value_list n_q_points fe_values.quadrature_points 0 q)
              - fe_values.function_values q c) ^ 2) * fe_values.JxW_values q))) := by
  rw [difference_L2_form]
  simp only [weight_factor, mul_one, exact_values_apply]

/-- C11: for `L1_norm` without weight the value of each cell is
`Σ_q ‖ψ_q‖ · JxW_q`, where `ψ_q` is the value of the exact solution at the
quadrature point `q` (the entry `q` of `vector_value_list` for a system
element, of `value_list` for a one-component element) minus the value of the
finite element function there, and `‖ψ_q‖ = sqrt (Σ_c ψ_{q,c}²)` is its
Euclidean norm over the components; no square root is taken of the sum over
`q`. -/
theorem integrate_difference_L1 (sqrt : R → R) (dim n_components n_q_points : Nat)
    (cells : List (FEValuesCell X R)) (exact_solution : Function X R) :
    integrate_difference sqrt dim n_components n_q_points cells exact_solution
        NormType.L1_norm none =
      Except.ok (cells.map (fun fe_values =>
        ∑ q ∈ Finset.range n_q_points,
          sqrt (∑ c ∈ Finset.range n_components,
            ((if n_components ≠ 1 then
                exact_solution.vector_value_list n_q_points fe_values.quadrature_points q c
              else
                exact_solution.value_list n_q_points fe_values.quadrature_points 0 q)
              - fe_values.function_values q c) ^ 2) * fe_values.JxW_values q)) := by
  rw [difference_L1_form]
  simp only [weight_factor, mul_one, exact_values_apply]

/-- C12: for `H1_seminorm` without weight the value of each cell is
`sqrt (Σ_q (Σ_c ‖∇ψ_{q,c}‖²) · JxW_q)`, where `∇ψ` is the exact gradient minus
the gradient of the finite element function; the result is the same for any
other function values of the finite element function and any other value
evaluators of the exact solution. -/
theorem integrate_difference_H1_seminorm (sqrt : R → R) (dim n_components n_q_points : Nat)
    (cells : List (FEValuesCell X R)) (exact_solution : Function X R) :
    integrate_difference sqrt dim n_components n_q_points cells exact_solution
        NormType.H1_seminorm none =
      Except.ok (cells.map (fun fe_values =>
        sqrt (∑ q ∈ Finset.range n_q_points,
          (∑ c ∈ Finset.range n_components, ∑ d ∈ Finset.range dim,
            (exact_grads n_components n_q_points exact_solution fe_values q c d
              - fe_values.function_grads q c d) ^ 2)
            * fe_values.JxW_values q))) ∧
    ∀ (function_values : FEValuesCell X R → Nat → Nat → R)
      (value_list vector_value_list : Nat → (Nat → X) → Nat → Nat → R),
      integrate_difference sqrt dim n_components n_q_points
          (cells.map (fun fe_values =>
            { fe_values with function_values := function_values fe_values }))
          { exact_solution with
            value_list := value_list, vector_value_list := vector_value_list }
          NormType.H1_seminorm none =
        integrate_difference sqrt dim n_components n_q_points cells exact_solution
          NormType.H1_seminorm none := by
  refine ⟨?_, ?_⟩
  · rw [difference_H1_seminorm_form]
    simp only [weight_factor, mul_one]
  · intro function_values value_list vector_value_list
    rw [difference_H1_seminorm_form, difference_H1_seminorm_form, List.map_map]
    rfl

/-- C13: for `H1_norm` with an optional weight the value of each cell is
`sqrt (A + B)`, where `A = Σ_q ‖ψ_q‖² w_q JxW_q` is the integral the `L2_norm`
takes the root of and `B = Σ_q (Σ_c ‖∇ψ_{q,c}‖²) w_q JxW_q` the one the
`H1_seminorm` takes the root of; when `sqrt` is a square root on the
non-negative numbers and the weights `w_q` and `JxW_q` are non-negative, the
square of the `H1_norm` value of a cell is the sum of the squares of its
`L2_norm` and `H1_seminorm` values. -/
theorem H1_norm_cascade (sqrt : R → R) (dim n_components n_q_points : Nat)
    (cells : List (FEValuesCell X R)) (exact_solution : Function X R)
    (weight : Option (Function X R))
    (hsqrt : ∀ x, 0 ≤ x → sqrt x ^ 2 = x)
    (hJxW : ∀ fe_values ∈ cells, ∀ q, q < n_q_points → 0 ≤ fe_values.JxW_values q)
    (hweight : ∀ fe_values ∈ cells, ∀ q, q < n_q_points →
      0 ≤ weight_factor weight n_q_points fe_values q) :
    integrate_difference sqrt dim n_components n_q_points cells exact_solution
        NormType.H1_norm weight =
      Except.ok (cells.map (fun fe_values =>
        sqrt ((∑ q ∈ Finset.range n_q_points,
          (∑ c ∈ Finset.range n_components,
            (exact_values n_components n_q_points exact_solution fe_values q c
              - fe_values.function_values q c) ^ 2)
            * weight_factor weight n_q_points fe_values q * fe_values.JxW_values q)
          + ∑ q ∈ Finset.range n_q_points,
          (∑ c ∈ Finset.range n_components, ∑ d ∈ Finset.range dim,
            (exact_grads n_components n_q_points exact_solution fe_values q c d
              - fe_values.function_grads q c d) ^ 2)
            * weight_factor weight n_q_points fe_values q * fe_values.JxW_values q))) ∧
    ∃ h1 l2 seminorm : List R,
      integrate_difference sqrt dim n_components n_q_points cells exact_solution
        NormType.H1_norm weight = Except.ok h1 ∧
      integrate_difference sqrt dim n_components n_q_points cells exact_solution
        NormType.L2_norm weight = Except.ok l2 ∧
      integrate_difference sqrt dim n_components n_q_points cells exact_solution
        NormType.H1_seminorm weight = Except.ok seminorm ∧
      h1.length = cells.length ∧ l2.length = cells.length ∧
      seminorm.length = cells.length ∧
      ∀ (i : Nat) (a b c : R), h1[i]? = some a → l2[i]? = some b → seminorm[i]? = some c →
        a ^ 2 = b ^ 2 + c ^ 2 := by
  refine ⟨difference_H1_norm_form _ _ _ _ _ _ _, _, _, _,
    difference_H1_norm_form _ _ _ _ _ _ _, difference_L2_form _ _ _ _ _ _ _,
    difference_H1_seminorm_form _ _ _ _ _ _ _, by simp, by simp, by simp, ?_⟩
  intro i a b c ha hb hc
  rw [List.getElem?_map] at ha hb hc
  cases hfe : cells[i]? with
  | none => rw [hfe] at ha; cases ha
  | some fe_values =>
    have hmem : fe_values ∈ cells := List.getElem?_mem hfe
    rw [hfe] at ha hb hc
    simp only [Option.map_some', Option.some.injEq] at ha hb hc
    have hA : 0 ≤ ∑ q ∈ Finset.range n_q_points,
        (∑ c ∈ Finset.range n_components,
            (exact_values n_components n_q_points exact_solution fe_values q c
              - fe_values.function_values q c) ^ 2)
          * weight_factor weight n_q_points fe_values q * fe_values.JxW_values q := by
      apply Finset.sum_nonneg
      intro q hq
      have hq' := Finset.mem_range.mp hq
      exact mul_nonneg (mul_nonneg (Finset.sum_nonneg (fun c _ => sq_nonneg _))
        (hweight fe_values hmem q hq')) (hJxW fe_values hmem q hq')
    have hB : 0 ≤ ∑ q ∈ Finset.range n_q_points,
        (∑ c ∈ Finset.range n_components, ∑ d ∈ Finset.range dim,
            (exact_grads n_components n_q_points exact_solution fe_values q c d
              - fe_values.function_grads q c d) ^ 2)
          * weight_factor weight n_q_points fe_values q * fe_values.JxW_values q := by
      apply Finset.sum_nonneg
      intro q hq
      have hq' := Finset.mem_range.mp hq
      exact mul_nonneg (mul_nonneg
        (Finset.sum_nonneg (fun c _ => Finset.sum_nonneg (fun d _ => sq_nonneg _)))
        (hweight fe_values hmem q hq')) (hJxW fe_values hmem q hq')
    rw [← ha, ← hb, ← hc, hsqrt _ (add_nonneg hA hB), hsqrt _ hA, hsqrt _ hB]

/-- The witness of C13: one quadrature point with `ψ = 3` and `∇ψ = 4`; the
`H1_norm` value is `5`, the `L2_norm` value `3`, the `H1_seminorm` value
`4`. -/
theorem H1_norm_cascade_witness :
    integrate_difference Real.sqrt 1 1 1 [unit_cell] field_three_four NormType.H1_norm none
      = Except.ok [5] ∧
    integrate_difference Real.sqrt 1 1 1 [unit_cell] field_three_four NormType.L2_norm none
      = Except.ok [3] ∧
    integrate_difference Real.sqrt 1 1 1 [unit_cell] field_three_four NormType.H1_seminorm none
      = Except.ok [4] := by
  have h := H1_norm_cascade Real.sqrt 1 1 1 [unit_cell] field_three_four none
    (fun x hx => Real.sq_sqrt hx)
    (fun fe_values hfe q _ => by
      rw [List.mem_singleton.mp hfe]
      exact zero_le_one)
    (fun fe_values _ q _ => zero_le_one)
  have h9 : Real.sqrt 9 = 3 := by
    rw [show (9 : ℝ) = 3 ^ 2 by norm_num]
    exact Real.sqrt_sq (by norm_num)
  have h16 : Real.sqrt 16 = 4 := by
    rw [show (16 : ℝ) = 4 ^ 2 by norm_num]
    exact Real.sqrt_sq (by norm_num)
  have h25 : Real.sqrt 25 = 5 := by
    rw [show (25 : ℝ) = 5 ^ 2 by norm_num]
    exact Real.sqrt_sq (by norm_num)
  refine ⟨?_, ?_, ?_⟩
  · rw [h.1]
    simp [exact_values, exact_grads, field_three_four, scalar_field, unit_cell, weight_factor]
    norm_num [h25]
  · rw [difference_L2_form]
    simp [exact_values, field_three_four, scalar_field, unit_cell, weight_factor, h9]
  · rw [difference_H1_seminorm_form]
    simp [exact_grads, field_three_four, scalar_field, unit_cell, weight_factor, h16]

theorem map_eq_replicate_zero {α : Type} (l : List α) (f : α → R)
    (h : ∀ a ∈ l, f a = 0) : l.map f = List.replicate l.length 0 := by
  rw [List.eq_replicate_iff]
  refine ⟨by simp, ?_⟩
  intro b hb
  obtain ⟨a, ha, rfl⟩ := List.mem_map.mp hb
  exact h a ha

/-- C14: when the exact values and gradients coincide with the values and
gradients of the finite element function at every quadrature point of every
cell, `sqrt 0 = 0`, the call is accepted (not `mean` on a one-component
element) and, for `Linfty_norm`, there is a quadrature point, then for every
norm and every optional weight the value of every cell is `0`. -/
theorem integrate_difference_identical (sqrt : R → R) (dim n_components n_q_points : Nat)
    (cells : List (FEValuesCell X R)) (exact_solution : Function X R)
    (norm : NormType) (weight : Option (Function X R))
    (hsqrt : sqrt 0 = 0)
    (haccept : ¬ (n_components = 1 ∧ norm = NormType.mean))
    (hq : norm = NormType.Linfty_norm → 0 < n_q_points)
    (hval : ∀ fe_values ∈ cells, ∀ q, q < n_q_points → ∀ c, c < n_components →
      exact_values n_components n_q_points exact_solution fe_values q c
        = fe_values.function_values q c)
    (hgrad : ∀ fe_values ∈ cells, ∀ q, q < n_q_points → ∀ c, c < n_components →
      ∀ d, d < dim →
      exact_grads n_components n_q_points exact_solution fe_values q c d
        = fe_values.function_grads q c d) :
    integrate_difference sqrt dim n_components n_q_points cells exact_solution norm weight
      = Except.ok (List.replicate cells.length 0) := by
  have hvk : ∀ fe_values ∈ cells, ∀ q ∈ Finset.range n_q_points,
      (∑ c ∈ Finset.range n_components,
            (exact_values n_components n_q_points exact_solution fe_values q c
              - fe_values.function_values q c) ^ 2) = 0 := by
    intro fe_values hfe q hq'
    apply Finset.sum_eq_zero
    intro c hc
    rw [hval fe_values hfe q (Finset.mem_range.mp hq') c (Finset.mem_range.mp hc), sub_self]
    exact zero_pow two_ne_zero
  have hgk : ∀ fe_values ∈ cells, ∀ q ∈ Finset.range n_q_points,
      (∑ c ∈ Finset.range n_components, ∑ d ∈ Finset.range dim,
            (exact_grads n_components n_q_points exact_solution fe_values q c d
              - fe_values.function_grads q c d) ^ 2) = 0 := by
    intro fe_values hfe q hq'
    apply Finset.sum_eq_zero
    intro c hc
    apply Finset.sum_eq_zero
    intro d hd
    rw [hgrad fe_values hfe q (Finset.mem_range.mp hq') c (Finset.mem_range.mp hc) d
      (Finset.mem_range.mp hd), sub_self]
    exact zero_pow two_ne_zero
  cases norm with
  | mean =>
    rw [difference_mean_form _ _ _ _ _ _ _ (fun h => haccept ⟨h, rfl⟩)]
    exact congrArg Except.ok (map_eq_replicate_zero _ _ (fun _ _ => rfl))
  | L1_norm =>
    rw [difference_L1_form]
    refine congrArg Except.ok (map_eq_replicate_zero _ _ ?_)
    intro fe_values hfe
    apply Finset.sum_eq_zero
    intro q hq'
    rw [hvk fe_values hfe q hq', hsqrt, zero_mul, zero_mul]
  | L2_norm =>
    rw [difference_L2_form]
    refine congrArg Except.ok (map_eq_replicate_zero _ _ ?_)
    intro fe_values hfe
    rw [Finset.sum_eq_zero, hsqrt]
    intro q hq'
    rw [hvk fe_values hfe q hq', zero_mul, zero_mul]
  | Linfty_norm =>
    rw [difference_Linfty_form _ _ _ _ _ _ _ (hq rfl)]
    refine congrArg Except.ok (map_eq_replicate_zero _ _ ?_)
    intro fe_values hfe
    apply le_antisymm
    · apply Finset.sup'_le
      intro q hq'
      rw [hvk fe_values hfe q hq', hsqrt, zero_mul]
    · have h0 : (0 : Nat) ∈ Finset.range n_q_points := Finset.mem_range.mpr (hq rfl)
      have hle := Finset.le_sup' (fun q => sqrt (∑ c ∈ Finset.range n_components,
            (exact_values n_components n_q_points exact_solution fe_values q c
              - fe_values.function_values q c) ^ 2)
        * weight_factor weight n_q_points fe_values q) h0
      simp only [hvk fe_values hfe 0 h0, hsqrt, zero_mul] at hle
      exact hle
  | H1_seminorm =>
    rw [difference_H1_seminorm_form]
    refine congrArg Except.ok (map_eq_replicate_zero _ _ ?_)
    intro fe_values hfe
    rw [Finset.sum_eq_zero, hsqrt]
    intro q hq'
    rw [hgk fe_values hfe q hq', zero_mul, zero_mul]
  | H1_norm =>
    rw [difference_H1_norm_form]
    refine congrArg Except.ok (map_eq_replicate_zero _ _ ?_)
    intro fe_values hfe
    rw [Finset.sum_eq_zero, Finset.sum_eq_zero, add_zero, hsqrt]
    · intro q hq'
      rw [hgk fe_values hfe q hq', zero_mul, zero_mul]
    · intro q hq'
      rw [hvk fe_values hfe q hq', zero_mul, zero_mul]

/-- The witness of C14: the exact solution `2` against the discrete function
`2` on one cell, in the `H1_norm` with the weight `1`. -/
theorem integrate_difference_identical_witness :
    integrate_difference Real.sqrt 1 1 1 [unit_cell_two] field_two NormType.H1_norm
      (some weight_one) = Except.ok [0] :=
  integrate_difference_identical Real.sqrt 1 1 1 [unit_cell_two] field_two NormType.H1_norm
    (some weight_one) Real.sqrt_zero (by simp) (by simp)
    (fun fe_values hfe q _ c _ => by
      rw [List.mem_singleton.mp hfe]
      simp [exact_values, field_two, scalar_field, unit_cell_two])
    (fun fe_values hfe q _ c _ d _ => by
      rw [List.mem_singleton.mp hfe]
      simp [exact_grads, field_two, scalar_field, unit_cell_two])

theorem integrate_difference_cell_error (sqrt : R → R) (dim n_components n_q_points : Nat)
    (exact_solution : Function X R) (norm : NormType) (weight : Option (Function X R))
    (fe_values : FEValuesCell X R) (psi_scalar : Nat → R) (e : Exc)
    (h : integrate_difference_cell sqrt dim n_components n_q_points exact_solution norm weight
      fe_values psi_scalar = Except.error e) : e = Exc.UndefinedBehaviour := by
  cases norm <;> simp only [integrate_difference_cell, values_block] at h
  all_goals first
    | cases h
    | (split at h
       · cases h
       · injection h with h; exact h.symm)

theorem integrate_difference_loop_error (sqrt : R → R) (dim n_components n_q_points : Nat)
    (exact_solution : Function X R) (norm : NormType) (weight : Option (Function X R))
    (e : Exc) :
    ∀ (cells : List (FEValuesCell X R)) (psi_scalar : Nat → R),
      integrate_difference_loop sqrt dim n_components n_q_points exact_solution norm weight
        cells psi_scalar = Except.error e → e = Exc.UndefinedBehaviour
  | [], _, h => by cases h
  | fe_values :: cells, psi_scalar, h => by
    unfold integrate_difference_loop at h
    cases hc : integrate_difference_cell sqrt dim n_components n_q_points exact_solution norm
      weight fe_values psi_scalar with
    | error e' =>
      rw [hc] at h
      simp only at h
      injection h with h
      rw [← h]
      exact integrate_difference_cell_error _ _ _ _ _ _ _ _ _ _ hc
    | ok r =>
      rw [hc] at h
      obtain ⟨diff, psi⟩ := r
      simp only at h
      cases hl : integrate_difference_loop sqrt dim n_components n_q_points exact_solution
        norm weight cells psi with
      | error e' =>
        rw [hl] at h
        simp only at h
        injection h with h
        rw [← h]
        exact integrate_difference_loop_error sqrt dim n_components n_q_points exact_solution
          norm weight e' cells psi hl
      | ok d =>
        rw [hl] at h
        cases h

/-- C15: `integrate_difference` raises `ExcNotUseful` exactly when the norm is
`mean` and the element has exactly one component. -/
theorem integrate_difference_not_useful (sqrt : R → R) (dim n_components n_q_points : Nat)
    (cells : List (FEValuesCell X R)) (exact_solution : Function X R)
    (norm : NormType) (weight : Option (Function X R)) :
    integrate_difference sqrt dim n_components n_q_points cells exact_solution norm weight
        = Except.error Exc.ExcNotUseful ↔
      (n_components = 1 ∧ norm = NormType.mean) := by
  constructor
  · intro h
    by_contra hn
    unfold integrate_difference at h
    rw [if_neg hn] at h
    have := integrate_difference_loop_error _ _ _ _ _ _ _ _ _ _ h
    cases this
  · intro h
    unfold integrate_difference
    rw [if_pos h]

theorem integrate_difference_loop_no_points (sqrt : R → R) (dim n_components : Nat)
    (exact_solution : Function X R) (weight : Option (Function X R))
    (fe_values : FEValuesCell X R) (cells : List (FEValuesCell X R)) (psi_scalar : Nat → R) :
    integrate_difference_loop sqrt dim n_components 0 exact_solution NormType.Linfty_norm
      weight (fe_values :: cells) psi_scalar = Except.error Exc.UndefinedBehaviour := by
  unfold integrate_difference_loop
  have h : integrate_difference_cell sqrt dim n_components 0 exact_solution
      NormType.Linfty_norm weight fe_values psi_scalar
        = Except.error Exc.UndefinedBehaviour := by
    simp [integrate_difference_cell, values_block]
  rw [h]

/-- C16: with a weight function `w` the integrand at the quadrature point `q`
is multiplied by `w_q = w (x_q)` before the sum or the maximum over `q`:
`L2_norm` gives `sqrt (Σ_q ‖ψ_q‖² w_q JxW_q)`, `L1_norm` gives
`Σ_q ‖ψ_q‖ w_q JxW_q`, `H1_seminorm` gives
`sqrt (Σ_q (Σ_c ‖∇ψ_{q,c}‖²) w_q JxW_q)`, `H1_norm` the root of the sum of the
two weighted integrals, `Linfty_norm` the maximum of `‖ψ_q‖ w_q`; and a
weight whose values at the quadrature points are all `1` gives, for every
norm, the result of the call without weight. -/
theorem integrate_difference_weighted (sqrt : R → R) (dim n_components n_q_points : Nat)
    (cells : List (FEValuesCell X R)) (exact_solution : Function X R)
    (w : Function X R) :
    integrate_difference sqrt dim n_components n_q_points cells exact_solution
        NormType.L2_norm (some w) =
      Except.ok (cells.map (fun fe_values =>
        sqrt (∑ q ∈ Finset.range n_q_points,
          (∑ c ∈ Finset.range n_components,
            (exact_values n_components n_q_points exact_solution fe_values q c
              - fe_values.function_values q c) ^ 2)
            * w.value_list n_q_points fe_values.quadrature_points 0 q * fe_values.JxW_values q))) ∧
    integrate_difference sqrt dim n_components n_q_points cells exact_solution
        NormType.L1_norm (some w) =
      Except.ok (cells.map (fun fe_values =>
        ∑ q ∈ Finset.range n_q_points,
          sqrt (∑ c ∈ Finset.range n_components,
            (exact_values n_components n_q_points exact_solution fe_values q c
              - fe_values.function_values q c) ^ 2)
            * w.value_list n_q_points fe_values.quadrature_points 0 q * fe_values.JxW_values q)) ∧
    integrate_difference sqrt dim n_components n_q_points cells exact_solution
        NormType.H1_seminorm (some w) =
      Except.ok (cells.map (fun fe_values =>
        sqrt (∑ q ∈ Finset.range n_q_points,
          (∑ c ∈ Finset.range n_components, ∑ d ∈ Finset.range dim,
            (exact_grads n_components n_q_points exact_solution fe_values q c d
              - fe_values.function_grads q c d) ^ 2)
            * w.value_list n_q_points fe_values.quadrature_points 0 q * fe_values.JxW_values q))) ∧
    integrate_difference sqrt dim n_components n_q_points cells exact_solution
        NormType.H1_norm (some w) =
      Except.ok (cells.map (fun fe_values =>
        sqrt ((∑ q ∈ Finset.range n_q_points,
          (∑ c ∈ Finset.range n_components,
            (exact_values n_components n_q_points exact_solution fe_values q c
              - fe_values.function_values q c) ^ 2)
            * w.value_list n_q_points fe_values.quadrature_points 0 q * fe_values.JxW_values q)
          + ∑ q ∈ Finset.range n_q_points,
          (∑ c ∈ Finset.range n_components, ∑ d ∈ Finset.range dim,
            (exact_grads n_components n_q_points exact_solution fe_values q c d
              - fe_values.function_grads q c d) ^ 2)
            * w.value_list n_q_points fe_values.quadrature_points 0 q * fe_values.JxW_values q))) ∧
    (∀ hq : 0 < n_q_points,
      integrate_difference sqrt dim n_components n_q_points cells exact_solution
          NormType.Linfty_norm (some w) =
        Except.ok (cells.map (fun fe_values =>
          (Finset.range n_q_points).sup' ⟨0, Finset.mem_range.mpr hq⟩
            (fun q => sqrt (∑ c ∈ Finset.range n_components,
            (exact_values n_components n_q_points exact_solution fe_values q c
              - fe_values.function_values q c) ^ 2)
              * w.value_list n_q_points fe_values.quadrature_points 0 q)))) ∧
    ((∀ fe_values ∈ cells, ∀ q, q < n_q_points →
        w.value_list n_q_points fe_values.quadrature_points 0 q = 1) →
      ∀ norm : NormType,
        integrate_difference sqrt dim n_components n_q_points cells exact_solution norm
            (some w) =
          integrate_difference sqrt dim n_components n_q_points cells exact_solution norm
            none) := by
  refine ⟨difference_L2_form _ _ _ _ _ _ _, difference_L1_form _ _ _ _ _ _ _,
    difference_H1_seminorm_form _ _ _ _ _ _ _, difference_H1_norm_form _ _ _ _ _ _ _,
    fun hq => difference_Linfty_form _ _ _ _ _ _ _ hq, ?_⟩
  intro hone norm
  have hwf : ∀ fe_values ∈ cells, ∀ q ∈ Finset.range n_q_points,
      weight_factor (some w) n_q_points fe_values q
        = weight_factor none n_q_points fe_values q := by
    intro fe_values hfe q hq
    simp only [weight_factor]
    exact hone fe_values hfe q (Finset.mem_range.mp hq)
  cases norm with
  | mean =>
    by_cases hnc : n_components = 1
    · simp [integrate_difference, hnc]
    · rw [difference_mean_form _ _ _ _ _ _ _ hnc, difference_mean_form _ _ _ _ _ _ _ hnc]
  | L1_norm =>
    rw [difference_L1_form, difference_L1_form]
    refine congrArg Except.ok (List.map_congr_left ?_)
    intro fe_values hfe
    exact Finset.sum_congr rfl (fun q hq => by rw [hwf fe_values hfe q hq])
  | L2_norm =>
    rw [difference_L2_form, difference_L2_form]
    refine congrArg Except.ok (List.map_congr_left ?_)
    intro fe_values hfe
    exact congrArg sqrt (Finset.sum_congr rfl (fun q hq => by rw [hwf fe_values hfe q hq]))
  | Linfty_norm =>
    by_cases hq : 0 < n_q_points
    · rw [difference_Linfty_form _ _ _ _ _ _ _ hq, difference_Linfty_form _ _ _ _ _ _ _ hq]
      refine congrArg Except.ok (List.map_congr_left ?_)
      intro fe_values hfe
      exact Finset.sup'_congr _ rfl (fun q hq' => by rw [hwf fe_values hfe q hq'])
    · have h0 : n_q_points = 0 := by omega
      subst h0
      cases cells with
      | nil => rfl
      | cons fe_values cells =>
        unfold integrate_difference
        rw [if_neg (by simp), if_neg (by simp), integrate_difference_loop_no_points,
          integrate_difference_loop_no_points]
  | H1_seminorm =>
    rw [difference_H1_seminorm_form, difference_H1_seminorm_form]
    refine congrArg Except.ok (List.map_congr_left ?_)
    intro fe_values hfe
    exact congrArg sqrt (Finset.sum_congr rfl (fun q hq => by rw [hwf fe_values hfe q hq]))
  | H1_norm =>
    rw [difference_H1_norm_form, difference_H1_norm_form]
    refine congrArg Except.ok (List.map_congr_left ?_)
    intro fe_values hfe
    exact congrArg sqrt (congrArg₂ (· + ·)
      (Finset.sum_congr rfl (fun q hq => by rw [hwf fe_values hfe q hq]))
      (Finset.sum_congr rfl (fun q hq => by rw [hwf fe_values hfe q hq])))

end NormClaims

/-! ## `subtract_mean_value` -/

section MeanValueClaims

variable {R : Type} [LinearOrderedField R]

theorem selected_sum_eq (v : List R) (p_select : List Bool) :
    ∀ n, selected_sum v p_select n =
      (∑ i ∈ (Finset.range n).filter (fun i => p_select.getD i false = true), v.getD i 0,
        ((Finset.range n).filter (fun i => p_select.getD i false = true)).card)
  | 0 => by simp [selected_sum]
  | n + 1 => by
    have ih := selected_sum_eq v p_select n
    unfold selected_sum at ih ⊢
    rw [List.range_succ, List.foldl_append, ih, Finset.range_succ, Finset.filter_insert]
    have hn : n ∉ (Finset.range n).filter (fun i => p_select.getD i false = true) := by
      simp
    by_cases hp : p_select.getD n false = true
    · simp only [List.foldl_cons, List.foldl_nil, hp, if_true]
      rw [Finset.sum_insert hn, Finset.card_insert_of_not_mem hn, add_comm]
    · simp only [List.foldl_cons, List.foldl_nil, hp, if_false]
      simp

/-- The vector after the first `m` iterations of the second loop of
`subtract_mean_value` (lines 973-975). -/
theorem shift_loop (v : List R) (p_select : List Bool) (s : R) :
    ∀ m, m ≤ v.length →
      ((List.range m).foldl
        (fun v i => if p_select.getD i false then v.set i (v.getD i 0 - s) else v) v).length
          = v.length ∧
      ∀ j, ((List.range m).foldl
        (fun v i => if p_select.getD i false then v.set i (v.getD i 0 - s) else v) v)[j]? =
          if j < m ∧ p_select.getD j false = true then (v[j]?).map (fun x => x - s)
          else v[j]?
  | 0, _ => by simp
  | m + 1, hm => by
    obtain ⟨hlen, hget⟩ := shift_loop v p_select s m (Nat.le_of_succ_le hm)
    rw [List.range_succ, List.foldl_append]
    simp only [List.foldl_cons, List.foldl_nil]
    by_cases hp : p_select.getD m false = true
    · rw [if_pos hp]
      refine ⟨by rw [List.length_set, hlen], ?_⟩
      intro j
      have hmv : m < v.length := hm
      have hwm : ((List.range m).foldl
          (fun v i => if p_select.getD i false then v.set i (v.getD i 0 - s) else v) v).getD m 0
            = v.getD m 0 := by
        rw [List.getD_eq_getElem?_getD, hget m, if_neg (by simp), List.getD_eq_getElem?_getD]
      rw [List.getElem?_set, hwm, hlen]
      by_cases hjm : m = j
      · subst hjm
        rw [if_pos rfl, if_pos hmv, if_pos ⟨Nat.lt_succ_self _, hp⟩,
          List.getD_eq_getElem?_getD, List.getElem?_eq_getElem hmv]
        rfl
      · rw [if_neg hjm, hget j]
        have hiff : (j < m + 1 ∧ p_select.getD j false = true) ↔
            (j < m ∧ p_select.getD j false = true) := by
          constructor
          · rintro ⟨h1, h2⟩
            exact ⟨by omega, h2⟩
          · rintro ⟨h1, h2⟩
            exact ⟨by omega, h2⟩
        simp only [hiff]
    · rw [if_neg hp]
      refine ⟨hlen, ?_⟩
      intro j
      rw [hget j]
      have hiff : (j < m + 1 ∧ p_select.getD j false = true) ↔
          (j < m ∧ p_select.getD j false = true) := by
        constructor
        · rintro ⟨h1, h2⟩
          refine ⟨?_, h2⟩
          rcases Nat.lt_succ_iff_lt_or_eq.mp h1 with h | h
          · exact h
          · rw [h] at h2
            exact absurd h2 hp
        · rintro ⟨h1, h2⟩
          exact ⟨by omega, h2⟩
      simp only [hiff]

/-- The result of `subtract_mean_value` on arguments of equal length, entry
by entry. -/
theorem subtract_mean_value_entries (v : List R) (p_select : List Bool)
    (hlen : v.length = p_select.length) :
    (subtract_mean_value v p_select).1 = none ∧
    (subtract_mean_value v p_select).2.length = v.length ∧
    ∀ j, (subtract_mean_value v p_select).2[j]? =
      if j < v.length ∧ p_select.getD j false = true then
        (v[j]?).map (fun x => x -
          (∑ i ∈ (Finset.range v.length).filter (fun i => p_select.getD i false = true),
              v.getD i 0) /
            (((Finset.range v.length).filter
              (fun i => p_select.getD i false = true)).card : R))
      else v[j]? := by
  unfold subtract_mean_value
  simp only [hlen, ne_eq, not_true_eq_false, if_false]
  rw [← hlen, selected_sum_eq]
  exact ⟨trivial, shift_loop v p_select _ v.length (Nat.le_refl _)⟩

/-- C17: for a vector `v` and a mask `p_select` of equal length that selects
at least one entry, `subtract_mean_value` returns normally, and afterwards the
sum of the selected entries of `v`, hence their arithmetic mean, is `0`. -/
theorem subtract_mean_value_mean_zero (v : List R) (p_select : List Bool)
    (hlen : v.length = p_select.length)
    (hsel : ∃ i, i < v.length ∧ p_select.getD i false = true) :
    (subtract_mean_value v p_select).1 = none ∧
    ∑ i ∈ (Finset.range v.length).filter (fun i => p_select.getD i false = true),
      (subtract_mean_value v p_select).2.getD i 0 = 0 ∧
    (∑ i ∈ (Finset.range v.length).filter (fun i => p_select.getD i false = true),
      (subtract_mean_value v p_select).2.getD i 0) /
        (((Finset.range v.length).filter
          (fun i => p_select.getD i false = true)).card : R) = 0 := by
  obtain ⟨hexc, -, hget⟩ := subtract_mean_value_entries v p_select hlen
  have hcard : (((Finset.range v.length).filter
          (fun i => p_select.getD i false = true)).card : R) ≠ 0 := by
    obtain ⟨i, hi, hp⟩ := hsel
    have hmem : i ∈ (Finset.range v.length).filter (fun i => p_select.getD i false = true) :=
      Finset.mem_filter.mpr ⟨Finset.mem_range.mpr hi, hp⟩
    exact Nat.cast_ne_zero.mpr (Finset.card_ne_zero_of_mem hmem)
  have hsum : ∑ i ∈ (Finset.range v.length).filter (fun i => p_select.getD i false = true),
      (subtract_mean_value v p_select).2.getD i 0 = 0 := by
    have hterm : ∀ i ∈ (Finset.range v.length).filter
        (fun i => p_select.getD i false = true),
        (subtract_mean_value v p_select).2.getD i 0 = v.getD i 0 -
          (∑ i ∈ (Finset.range v.length).filter (fun i => p_select.getD i false = true),
          v.getD i 0) /
            (((Finset.range v.length).filter
          (fun i => p_select.getD i false = true)).card : R) := by
      intro i hi
      obtain ⟨hir, hp⟩ := Finset.mem_filter.mp hi
      have hiv : i < v.length := Finset.mem_range.mp hir
      rw [List.getD_eq_getElem?_getD, hget i, if_pos ⟨hiv, hp⟩, List.getD_eq_getElem?_getD,
        List.getElem?_eq_getElem hiv]
      rfl
    rw [Finset.sum_congr rfl hterm, Finset.sum_sub_distrib, Finset.sum_const, nsmul_eq_mul,
      mul_div_cancel₀ _ hcard, sub_self]
  exact ⟨hexc, hsum, by rw [hsum, zero_div]⟩

/-- The witness of C17: the entries `1` and `6` of `[1, 2, 6]` are selected;
their mean `7/2` is subtracted from both. -/
theorem subtract_mean_value_mean_zero_witness :
    subtract_mean_value ([1, 2, 6] : List ℚ) [true, false, true]
      = (none, [-5 / 2, 2, 5 / 2]) ∧
    (subtract_mean_value ([1, 2, 6] : List ℚ) [true, false, true]).1 = none ∧
    ∑ i ∈ (Finset.range 3).filter (fun i => [true, false, true].getD i false = true),
      (subtract_mean_value ([1, 2, 6] : List ℚ) [true, false, true]).2.getD i 0 = 0 := by
  have h := subtract_mean_value_mean_zero ([1, 2, 6] : List ℚ) [true, false, true] rfl
    ⟨0, by decide, rfl⟩
  refine ⟨?_, h.1, h.2.1⟩
  simp [subtract_mean_value, selected_sum, List.range_succ]
  norm_num

/-- C18: for a vector `v` and a mask `p_select` of equal length,
`subtract_mean_value` keeps the length of `v`, leaves every entry with
`p_select[i] = false` as it was, and replaces every selected entry `v[i]` by
`v[i] - m`, with the same `m` for all of them: the mean of the selected
entries before the call. -/
theorem subtract_mean_value_frame (v : List R) (p_select : List Bool)
    (hlen : v.length = p_select.length) :
    (subtract_mean_value v p_select).2.length = v.length ∧
    (∀ i, p_select.getD i false = false → (subtract_mean_value v p_select).2[i]? = v[i]?) ∧
    (∀ i, i < v.length → p_select.getD i false = true →
      (subtract_mean_value v p_select).2[i]? =
        (v[i]?).map (fun x => x -
          (∑ i ∈ (Finset.range v.length).filter (fun i => p_select.getD i false = true),
          v.getD i 0) /
            (((Finset.range v.length).filter
          (fun i => p_select.getD i false = true)).card : R))) := by
  obtain ⟨-, hl, hget⟩ := subtract_mean_value_entries v p_select hlen
  refine ⟨hl, ?_, ?_⟩
  · intro i hp
    rw [hget i, if_neg]
    rintro ⟨-, h⟩
    rw [hp] at h
    cases h
  · intro i hi hp
    rw [hget i, if_pos ⟨hi, hp⟩]

/-- The witness of C18: `[1, 2, 6]` with the first and the last entry
selected. -/
theorem subtract_mean_value_frame_witness :
    (subtract_mean_value ([1, 2, 6] : List ℚ) [true, false, true]).2.length = 3 ∧
    (subtract_mean_value ([1, 2, 6] : List ℚ) [true, false, true]).2[1]? = some 2 := by
  have h := subtract_mean_value_frame ([1, 2, 6] : List ℚ) [true, false, true] rfl
  exact ⟨h.1, h.2.1 1 rfl⟩

/-- C19 as stated fails: with a mask that selects no entry the call returns
normally and leaves the vector as it was. -/
theorem subtract_mean_value_empty_selection_returns :
    subtract_mean_value ([1, 2] : List ℚ) [false, false] = (none, [1, 2]) ∧
    (subtract_mean_value ([1, 2] : List ℚ) [false, false]).1 = none := by
  have h : subtract_mean_value ([1, 2] : List ℚ) [false, false] = (none, [1, 2]) := by
    simp [subtract_mean_value, selected_sum, List.range_succ]
  exact ⟨h, by rw [h]⟩

/-- C19, amended: for a vector and a mask of equal length that selects no
entry, `subtract_mean_value` raises no exception and returns the vector
unchanged; the only exception of the routine is `ExcDimensionMismatch`, raised
exactly when the lengths differ. -/
theorem subtract_mean_value_empty_selection (v : List R) (p_select : List Bool)
    (hlen : v.length = p_select.length)
    (hnone : ∀ i, i < v.length → p_select.getD i false = false) :
    subtract_mean_value v p_select = (none, v) ∧
    ∀ (w : List R) (m : List Bool),
      ((subtract_mean_value w m).1 = some Exc.ExcDimensionMismatch ↔ w.length ≠ m.length) ∧
      ((subtract_mean_value w m).1 = none ↔ w.length = m.length) := by
  constructor
  · obtain ⟨hexc, -, hget⟩ := subtract_mean_value_entries v p_select hlen
    refine Prod.ext hexc (List.ext_getElem? ?_)
    intro j
    rw [hget j, if_neg]
    rintro ⟨hj, hp⟩
    rw [hnone j hj] at hp
    cases hp
  · intro w m
    by_cases h : w.length = m.length
    · simp [(subtract_mean_value_entries w m h).1, h]
    · simp [subtract_mean_value, h]

/-- The witness of C19, amended: the vector `[3]` with nothing selected. -/
theorem subtract_mean_value_empty_selection_witness :
    subtract_mean_value ([3] : List ℚ) [false] = (none, [3]) :=
  (subtract_mean_value_empty_selection ([3] : List ℚ) [false] rfl
    (fun i hi => by
      have : i = 0 := by
        have hi' : i < 1 := hi
        omega
      rw [this]
      rfl)).1

end MeanValueClaims

/-! ## `interpolate_boundary_values`: the reserved boundary indicator -/

section BoundaryIndicator

variable {X R : Type}

theorem interpolate_boundary_values_exc (dof : FaceDoFHandler X) (boundary_component : Fin 256)
    (boundary_function : Function X R) (boundary_values : BoundaryValues R)
    (component_mask_ : List Bool) (h : boundary_component ≠ 255) :
    (interpolate_boundary_values dof boundary_component boundary_function boundary_values
      component_mask_).1 ≠ some Exc.ExcInvalidBoundaryIndicator := by
  unfold interpolate_boundary_values
  rw [if_neg h]
  dsimp only
  split_ifs <;> simp

theorem interpolate_boundary_values_1d_exc (fuel : Nat) (dof : LineDoFHandler X)
    (boundary_component : Fin 256) (boundary_function : PointFunction X R)
    (boundary_values m : BoundaryValues R) (component_mask_ : List Bool)
    (h : boundary_component ≠ 255) :
    interpolate_boundary_values_1d fuel dof boundary_component boundary_function
      boundary_values component_mask_ ≠ some (some Exc.ExcInvalidBoundaryIndicator, m) := by
  unfold interpolate_boundary_values_1d
  rw [if_neg h]
  intro heq
  dsimp only at heq
  repeat' split at heq
  all_goals simp at heq

/-- C20: both the general `interpolate_boundary_values` and its
one-dimensional specialisation raise `ExcInvalidBoundaryIndicator` exactly
when the requested boundary component is `255`; in that case the map
`boundary_values` is the one passed in. -/
theorem invalid_boundary_indicator (dof : FaceDoFHandler X) (line : LineDoFHandler X)
    (fuel : Nat) (boundary_component : Fin 256) (boundary_function : Function X R)
    (point_function : PointFunction X R) (boundary_values : BoundaryValues R)
    (component_mask_ : List Bool) :
    ((interpolate_boundary_values dof boundary_component boundary_function boundary_values
      component_mask_).1 = some Exc.ExcInvalidBoundaryIndicator ↔ boundary_component = 255) ∧
    (boundary_component = 255 →
      interpolate_boundary_values dof boundary_component boundary_function boundary_values
        component_mask_ = (some Exc.ExcInvalidBoundaryIndicator, boundary_values)) ∧
    ((∃ m, interpolate_boundary_values_1d fuel line boundary_component point_function
      boundary_values component_mask_ = some (some Exc.ExcInvalidBoundaryIndicator, m)) ↔
        boundary_component = 255) ∧
    (boundary_component = 255 →
      interpolate_boundary_values_1d fuel line boundary_component point_function
        boundary_values component_mask_
          = some (some Exc.ExcInvalidBoundaryIndicator, boundary_values)) := by
  have hgen : boundary_component = 255 →
      interpolate_boundary_values dof boundary_component boundary_function boundary_values
        component_mask_ = (some Exc.ExcInvalidBoundaryIndicator, boundary_values) := by
    intro h
    unfold interpolate_boundary_values
    rw [if_pos h]
  have hline : boundary_component = 255 →
      interpolate_boundary_values_1d fuel line boundary_component point_function
        boundary_values component_mask_
          = some (some Exc.ExcInvalidBoundaryIndicator, boundary_values) := by
    intro h
    unfold interpolate_boundary_values_1d
    rw [if_pos h]
  refine ⟨⟨?_, fun h => by rw [hgen h]⟩, hgen, ⟨?_, fun h => ⟨boundary_values, hline h⟩⟩, hline⟩
  · intro h
    by_contra hne
    exact interpolate_boundary_values_exc dof boundary_component boundary_function
      boundary_values component_mask_ hne h
  · rintro ⟨m, h⟩
    by_contra hne
    exact interpolate_boundary_values_1d_exc fuel line boundary_component point_function
      boundary_values m component_mask_ hne h

end BoundaryIndicator

/-! ## The prescribed-value map: which keys a loop of assignments creates -/

section BoundaryKeys

variable {X R : Type}

theorem assign_apply (m : BoundaryValues R) (k₀ : Nat) (x : R) (k : Nat) :
    m.assign k₀ x k = if k = k₀ then some x else m k := rfl

theorem assign_fold_get (cond : Nat → Bool) (key : Nat → Nat) (val : Nat → R) :
    ∀ (l : List Nat) (m : BoundaryValues R) (k : Nat) (x : R),
      (l.foldl (fun m i => if cond i then m.assign (key i) (val i) else m) m) k = some x →
      m k = some x ∨ ∃ i ∈ l, cond i = true ∧ key i = k ∧ val i = x
  | [], _, _, _, h => Or.inl h
  | i :: l, m, k, x, h => by
    rw [List.foldl_cons] at h
    rcases assign_fold_get cond key val l _ k x h with h' | ⟨j, hj, hc, hk, hv⟩
    · by_cases hci : cond i = true
      · rw [if_pos hci, assign_apply] at h'
        by_cases hki : k = key i
        · rw [if_pos hki] at h'
          right
          exact ⟨i, List.mem_cons_self _ _, hci, hki.symm, Option.some.inj h'⟩
        · rw [if_neg hki] at h'
          exact Or.inl h'
      · rw [if_neg hci] at h'
        exact Or.inl h'
    · exact Or.inr ⟨j, List.mem_cons_of_mem _ hj, hc, hk, hv⟩

theorem assign_fold_isSome (cond : Nat → Bool) (key : Nat → Nat) (val : Nat → R) :
    ∀ (l : List Nat) (m : BoundaryValues R) (k : Nat),
      ((l.foldl (fun m i => if cond i then m.assign (key i) (val i) else m) m) k).isSome ↔
        (m k).isSome ∨ ∃ i ∈ l, cond i = true ∧ key i = k
  | [], m, k => by simp
  | i :: l, m, k => by
    rw [List.foldl_cons, assign_fold_isSome cond key val l]
    by_cases hci : cond i = true
    · rw [if_pos hci, assign_apply]
      by_cases hki : k = key i
      · rw [if_pos hki]
        simp only [Option.isSome_some, true_or, true_iff]
        right
        exact ⟨i, List.mem_cons_self _ _, hci, hki.symm⟩
      · rw [if_neg hki]
        constructor
        · rintro (h | ⟨j, hj, hc, hk⟩)
          · exact Or.inl h
          · exact Or.inr ⟨j, List.mem_cons_of_mem _ hj, hc, hk⟩
        · rintro (h | ⟨j, hj, hc, hk⟩)
          · exact Or.inl h
          · rcases List.mem_cons.mp hj with rfl | hj
            · exact absurd hk.symm hki
            · exact Or.inr ⟨j, hj, hc, hk⟩
    · rw [if_neg hci]
      constructor
      · rintro (h | ⟨j, hj, hc, hk⟩)
        · exact Or.inl h
        · exact Or.inr ⟨j, List.mem_cons_of_mem _ hj, hc, hk⟩
      · rintro (h | ⟨j, hj, hc, hk⟩)
        · exact Or.inl h
        · rcases List.mem_cons.mp hj with rfl | hj
          · exact absurd hc hci
          · exact Or.inr ⟨j, hj, hc, hk⟩

theorem interpolate_boundary_values_ok (dof : FaceDoFHandler X) (boundary_component : Fin 256)
    (boundary_function : Function X R) (boundary_values : BoundaryValues R)
    (component_mask_ : List Bool) (hbc : boundary_component ≠ 255)
    (hcomp : dof.fe.n_components = boundary_function.n_components)
    (hcount : 0 < (component_mask dof.fe.n_components component_mask_).count true) :
    interpolate_boundary_values dof boundary_component boundary_function boundary_values
        component_mask_ =
      (none, dof.active_faces.foldl
        (fun m face =>
          if boundary_component = face.boundary_indicator then
            interpolate_boundary_values_face dof.fe boundary_function
              (component_mask dof.fe.n_components component_mask_) face m
          else m) boundary_values) := by
  unfold interpolate_boundary_values
  rw [if_neg hbc, if_neg (by simp [hcomp])]
  dsimp only
  rw [if_neg (by simp [hcount])]

end BoundaryKeys

/-! ## `interpolate_boundary_values`: keys and component mask -/

section BoundaryClaims

variable {X R : Type}

theorem component_mask_default (n_components : Nat) :
    component_mask n_components (List.replicate n_components true)
      = component_mask n_components [] := by
  unfold component_mask
  by_cases h : n_components = 0
  · subst h
    rfl
  · simp [h]

/-- C25: in the general `interpolate_boundary_values` and in its
one-dimensional specialisation a mask of size zero gives the same outcome,
exception and map, as the mask of `n_components` entries `true`, for every
space, boundary function, boundary component and initial map. -/
theorem empty_mask_is_all_true (dof : FaceDoFHandler X) (line : LineDoFHandler X) (fuel : Nat)
    (boundary_component : Fin 256) (boundary_function : Function X R)
    (point_function : PointFunction X R) (boundary_values : BoundaryValues R) :
    interpolate_boundary_values dof boundary_component boundary_function boundary_values []
      = interpolate_boundary_values dof boundary_component boundary_function boundary_values
          (List.replicate dof.fe.n_components true) ∧
    interpolate_boundary_values_1d fuel line boundary_component point_function
        boundary_values []
      = interpolate_boundary_values_1d fuel line boundary_component point_function
          boundary_values (List.replicate line.fe.n_components true) := by
  constructor
  · simp only [interpolate_boundary_values, component_mask_default]
  · simp only [interpolate_boundary_values_1d, component_mask_default]

/-- C26 as stated fails: the call with a mask of size zero raises no
exception and enters the value of the boundary function for the dof `0`. -/
theorem interpolate_boundary_values_empty_mask_accepted :
    (interpolate_boundary_values ⟨fe_face_scalar, example_faces⟩ 0 field_seven
      (fun _ => none) []).1 = none ∧
    (interpolate_boundary_values ⟨fe_face_scalar, example_faces⟩ 0 field_seven
      (fun _ => none) []).2 0 = some 7 := by
  refine ⟨?_, ?_⟩
  · simp [interpolate_boundary_values, component_mask, fe_face_scalar, field_seven,
      scalar_field]
  · simp [interpolate_boundary_values, component_mask, fe_face_scalar, field_seven,
      scalar_field, example_faces, interpolate_boundary_values_face, List.range_succ,
      BoundaryValues.assign]

theorem interpolate_boundary_values_fail (dof : FaceDoFHandler X)
    (boundary_component : Fin 256) (boundary_function : Function X R)
    (boundary_values : BoundaryValues R) (component_mask_ : List Bool) :
    (boundary_component = 255 →
      interpolate_boundary_values dof boundary_component boundary_function boundary_values
        component_mask_ = (some Exc.ExcInvalidBoundaryIndicator, boundary_values)) ∧
    (boundary_component ≠ 255 → dof.fe.n_components ≠ boundary_function.n_components →
      interpolate_boundary_values dof boundary_component boundary_function boundary_values
        component_mask_ = (some Exc.ExcInvalidFE, boundary_values)) ∧
    (boundary_component ≠ 255 → dof.fe.n_components = boundary_function.n_components →
      ¬ 0 < (component_mask dof.fe.n_components component_mask_).count true →
      interpolate_boundary_values dof boundary_component boundary_function boundary_values
        component_mask_ = (some Exc.ExcComponentMismatch, boundary_values)) := by
  refine ⟨?_, ?_, ?_⟩
  · intro h
    unfold interpolate_boundary_values
    rw [if_pos h]
  · intro h1 h2
    unfold interpolate_boundary_values
    rw [if_neg h1, if_pos h2]
  · intro h1 h2 h3
    unfold interpolate_boundary_values
    rw [if_neg h1, if_neg (not_not.mpr h2)]
    dsimp only
    rw [if_pos h3]

/-- C26, amended: a mask of size zero is replaced by `n_components` entries
`true` and is no error for an element with at least one component; the
general `interpolate_boundary_values` raises `ExcComponentMismatch`, before
any face is visited, exactly when the other two checks pass and the mask in
force (the one passed in, or the replacement) has no entry `true`. -/
theorem zero_size_mask_is_default (dof : FaceDoFHandler X) (boundary_component : Fin 256)
    (boundary_function : Function X R) (boundary_values : BoundaryValues R)
    (component_mask_ : List Bool) :
    (boundary_component ≠ 255 → dof.fe.n_components = boundary_function.n_components →
      0 < dof.fe.n_components →
      (interpolate_boundary_values dof boundary_component boundary_function boundary_values
        []).1 = none) ∧
    ((interpolate_boundary_values dof boundary_component boundary_function boundary_values
        component_mask_).1 = some Exc.ExcComponentMismatch ↔
      (boundary_component ≠ 255 ∧ dof.fe.n_components = boundary_function.n_components ∧
        (component_mask dof.fe.n_components component_mask_).count true = 0)) ∧
    ((interpolate_boundary_values dof boundary_component boundary_function boundary_values
        component_mask_).1 = some Exc.ExcComponentMismatch →
      (interpolate_boundary_values dof boundary_component boundary_function boundary_values
        component_mask_).2 = boundary_values) := by
  refine ⟨?_, ?_, ?_⟩
  · intro hbc hcomp hpos
    rw [interpolate_boundary_values_ok dof boundary_component boundary_function _ [] hbc hcomp]
    simp [component_mask, hpos]
  · by_cases hbc : boundary_component = 255
    · rw [(interpolate_boundary_values_fail dof boundary_component boundary_function
        boundary_values component_mask_).1 hbc]
      simp [hbc]
    · by_cases hcomp : dof.fe.n_components = boundary_function.n_components
      · by_cases hcount : 0 < (component_mask dof.fe.n_components component_mask_).count true
        · rw [interpolate_boundary_values_ok dof boundary_component boundary_function _ _ hbc
            hcomp hcount]
          constructor
          · intro h
            cases h
          · rintro ⟨-, -, h0⟩
            rw [h0] at hcount
            exact absurd hcount (Nat.lt_irrefl 0)
        · rw [(interpolate_boundary_values_fail dof boundary_component boundary_function
            boundary_values component_mask_).2.2 hbc hcomp hcount]
          simp only [true_iff]
          exact ⟨hbc, hcomp, Nat.eq_zero_of_not_pos hcount⟩
      · rw [(interpolate_boundary_values_fail dof boundary_component boundary_function
          boundary_values component_mask_).2.1 hbc hcomp]
        simp [hcomp]
  · by_cases hbc : boundary_component = 255
    · rw [(interpolate_boundary_values_fail dof boundary_component boundary_function
        boundary_values component_mask_).1 hbc]
      intro _
      rfl
    · by_cases hcomp : dof.fe.n_components = boundary_function.n_components
      · by_cases hcount : 0 < (component_mask dof.fe.n_components component_mask_).count true
        · rw [interpolate_boundary_values_ok dof boundary_component boundary_function _ _ hbc
            hcomp hcount]
          intro h
          cases h
        · rw [(interpolate_boundary_values_fail dof boundary_component boundary_function
            boundary_values component_mask_).2.2 hbc hcomp hcount]
          intro _
          rfl
      · rw [(interpolate_boundary_values_fail dof boundary_component boundary_function
          boundary_values component_mask_).2.1 hbc hcomp]
        intro _
        rfl

end BoundaryClaims

/-! ## `project`: the boundary values -/

section ProjectClaims

variable {X R : Type}

theorem enforce_zero_isSome [Zero R] (dofs_per_face : Nat) :
    ∀ (faces : List (BoundaryFace X)) (m : BoundaryValues R) (k : Nat),
      (enforce_zero_boundary_values dofs_per_face faces m k).isSome ↔
        (m k).isSome ∨ ∃ face ∈ faces, face.at_boundary = true ∧
          ∃ i, i < dofs_per_face ∧ face.dof_indices i = k
  | [], m, k => by simp [enforce_zero_boundary_values]
  | face :: faces, m, k => by
    have ih := enforce_zero_isSome dofs_per_face faces
    unfold enforce_zero_boundary_values at ih ⊢
    rw [List.foldl_cons, ih]
    by_cases hb : face.at_boundary = true
    · rw [if_pos hb]
      have hfold := assign_fold_isSome (fun _ => true) face.dof_indices (fun _ => (0 : R))
        (List.range dofs_per_face) m k
      simp only [if_true] at hfold
      rw [hfold]
      constructor
      · rintro ((h | ⟨i, hi, -, hk⟩) | ⟨f, hf, hfb, h⟩)
        · exact Or.inl h
        · exact Or.inr ⟨face, List.mem_cons_self _ _, hb, i, List.mem_range.mp hi, hk⟩
        · exact Or.inr ⟨f, List.mem_cons_of_mem _ hf, hfb, h⟩
      · rintro (h | ⟨f, hf, hfb, i, hi, hk⟩)
        · exact Or.inl (Or.inl h)
        · rcases List.mem_cons.mp hf with rfl | hf
          · exact Or.inl (Or.inr ⟨i, List.mem_range.mpr hi, trivial, hk⟩)
          · exact Or.inr ⟨f, hf, hfb, i, hi, hk⟩
    · rw [if_neg hb]
      constructor
      · rintro (h | ⟨f, hf, hfb, h⟩)
        · exact Or.inl h
        · exact Or.inr ⟨f, List.mem_cons_of_mem _ hf, hfb, h⟩
      · rintro (h | ⟨f, hf, hfb, h⟩)
        · exact Or.inl h
        · rcases List.mem_cons.mp hf with rfl | hf
          · exact absurd hfb hb
          · exact Or.inr ⟨f, hf, hfb, h⟩

theorem enforce_zero_value [Zero R] (dofs_per_face : Nat) :
    ∀ (faces : List (BoundaryFace X)) (m : BoundaryValues R) (k : Nat) (x : R),
      enforce_zero_boundary_values dofs_per_face faces m k = some x → m k = some x ∨ x = 0
  | [], _, _, _, h => Or.inl h
  | face :: faces, m, k, x, h => by
    have ih := enforce_zero_value dofs_per_face faces
    unfold enforce_zero_boundary_values at ih h
    rw [List.foldl_cons] at h
    rcases ih _ k x h with h' | h'
    · by_cases hb : face.at_boundary = true
      · rw [if_pos hb] at h'
        have hfold := assign_fold_get (fun _ => true) face.dof_indices (fun _ => (0 : R))
          (List.range dofs_per_face) m k x
        simp only [if_true] at hfold
        rcases hfold h' with h'' | ⟨_, _, _, _, hv⟩
        · exact Or.inl h''
        · exact Or.inr hv.symm
      · rw [if_neg hb] at h'
        exact Or.inl h'
    · exact Or.inr h'

/-- C22 as stated fails: on the one-dimensional mesh of four linear elements
`project` with zero-enforcement raises `ExcNotImplemented`; no map results,
and in particular neither end point dof has a prescribed value. -/
theorem project_1d_not_implemented :
    project_make_boundary_values 256 1 fe_vertex line_nodes field_x true false [] (fun _ => 0)
      = some (some Exc.ExcNotImplemented, fun _ => none) ∧
    ∀ r, project_make_boundary_values 256 1 fe_vertex line_nodes field_x true false []
        (fun _ => 0) = some r →
      r.1 = some Exc.ExcNotImplemented ∧ r.2 0 = none ∧ r.2 4 = none := by
  have h : project_make_boundary_values 256 1 fe_vertex line_nodes field_x true false []
      (fun _ => 0) = some (some Exc.ExcNotImplemented, fun _ => none) := by
    unfold project_make_boundary_values
    rw [if_pos rfl]
  refine ⟨h, ?_⟩
  intro r hr
  rw [h] at hr
  cases hr
  exact ⟨rfl, rfl, rfl⟩

/-- C22, amended: in one dimension `project` raises `ExcNotImplemented` and
makes no map; in every other dimension, with matching component counts,
zero-enforcement raises no exception and yields a map whose keys are exactly
the dofs of the active faces at the boundary, each with the value `0`
(`project` has no component mask). -/
theorem project_zero_boundary [Zero R] (fuel dim : Nat) (fe : FaceFiniteElement)
    (active_faces : List (BoundaryFace X)) (function : Function X R)
    (enforce_zero_boundary project_to_boundary_first : Bool)
    (dof_to_boundary_mapping : List Int) (boundary_projection : Nat → R) :
    (dim = 1 →
      project_make_boundary_values fuel dim fe active_faces function enforce_zero_boundary
        project_to_boundary_first dof_to_boundary_mapping boundary_projection
          = some (some Exc.ExcNotImplemented, fun _ => none)) ∧
    (dim ≠ 1 → fe.n_components = function.n_components →
      ∃ m : BoundaryValues R,
        project_make_boundary_values fuel dim fe active_faces function true
          project_to_boundary_first dof_to_boundary_mapping boundary_projection
            = some (none, m) ∧
        ∀ k, (m k = some 0 ↔ ∃ face ∈ active_faces, face.at_boundary = true ∧
            ∃ i, i < fe.dofs_per_face ∧ face.dof_indices i = k) ∧
          (m k = none ↔ ¬ ∃ face ∈ active_faces, face.at_boundary = true ∧
            ∃ i, i < fe.dofs_per_face ∧ face.dof_indices i = k)) := by
  constructor
  · intro h
    unfold project_make_boundary_values
    rw [if_pos h]
  · intro hdim hcomp
    refine ⟨enforce_zero_boundary_values fe.dofs_per_face active_faces (fun _ => none), ?_, ?_⟩
    · unfold project_make_boundary_values
      rw [if_neg hdim, if_neg (not_not.mpr hcomp), if_pos rfl]
    · intro k
      have hkeys := enforce_zero_isSome (R := R) fe.dofs_per_face active_faces (fun _ => none) k
      simp only [Option.isSome_none, Bool.false_eq_true, false_or] at hkeys
      constructor
      · constructor
        · intro h
          exact hkeys.mp (by rw [h]; rfl)
        · intro h
          have hsome := hkeys.mpr h
          obtain ⟨x, hx⟩ := Option.isSome_iff_exists.mp hsome
          rcases enforce_zero_value fe.dofs_per_face active_faces (fun _ => none) k x hx
            with h' | h'
          · cases h'
          · rw [hx, h']
      · rw [← hkeys]
        cases enforce_zero_boundary_values fe.dofs_per_face active_faces
          (fun _ => (none : Option R)) k <;> simp

/-- C23: for every ambient dimension `dim ≥ 3`, `project_boundary_values`
called with a boundary function whose component count matches the element
raises `ExcNotImplemented` and leaves the map as it was; for `dim ≥ 3` the
call never returns normally and never changes the map; for `dim < 3` it
never raises `ExcNotImplemented`. -/
theorem project_boundary_values_not_implemented (dim n_components : Nat)
    (boundary_functions : BoundaryFunctions X R) (dof_to_boundary_mapping : List Int)
    (boundary_projection : Nat → R) (boundary_values : BoundaryValues R) :
    (3 ≤ dim → ∀ first, begin_function boundary_functions = some first →
      n_components = first.n_components →
      project_boundary_values dim n_components boundary_functions dof_to_boundary_mapping
        boundary_projection boundary_values
          = (some Exc.ExcNotImplemented, boundary_values)) ∧
    (3 ≤ dim →
      (project_boundary_values dim n_components boundary_functions dof_to_boundary_mapping
        boundary_projection boundary_values).1 ≠ none ∧
      (project_boundary_values dim n_components boundary_functions dof_to_boundary_mapping
        boundary_projection boundary_values).2 = boundary_values) ∧
    (dim < 3 →
      (project_boundary_values dim n_components boundary_functions dof_to_boundary_mapping
        boundary_projection boundary_values).1 ≠ some Exc.ExcNotImplemented) := by
  refine ⟨?_, ?_, ?_⟩
  · intro hdim first hfirst hcomp
    unfold project_boundary_values
    rw [hfirst]
    simp only
    rw [if_neg (not_not.mpr hcomp), if_pos (by omega)]
  · intro hdim
    unfold project_boundary_values
    cases begin_function boundary_functions with
    | none => exact ⟨by simp, rfl⟩
    | some first =>
      simp only
      by_cases hcomp : n_components = first.n_components
      · rw [if_neg (not_not.mpr hcomp), if_pos (by omega)]
        exact ⟨by simp, rfl⟩
      · rw [if_pos hcomp]
        exact ⟨by simp, rfl⟩
  · intro hdim
    unfold project_boundary_values
    cases begin_function boundary_functions with
    | none => simp
    | some first =>
      simp only
      by_cases hcomp : n_components = first.n_components
      · rw [if_neg (not_not.mpr hcomp), if_neg (not_not.mpr hdim),
          if_neg (not_not.mpr hdim)]
        simp
      · rw [if_pos hcomp]
        simp

theorem boundary_functions_loop_from (function : Function X R) :
    ∀ (n c : Nat) (m : BoundaryFunctions X R) (fuel : Nat), c + n = 255 → n + 1 ≤ fuel →
      boundary_functions_loop function fuel c m =
        some (fun k => if c ≤ k ∧ k < 255 then some function else m k)
  | 0, c, m, fuel, hc, hfuel => by
    obtain ⟨fuel', rfl⟩ : ∃ f, fuel = f + 1 := ⟨fuel - 1, by omega⟩
    have h255 : c = 255 := by omega
    subst h255
    unfold boundary_functions_loop
    rw [if_neg (by decide)]
    congr 1
    funext k
    rw [if_neg (by omega)]
  | n + 1, c, m, fuel, hc, hfuel => by
    obtain ⟨fuel', rfl⟩ : ∃ f, fuel = f + 1 := ⟨fuel - 1, by omega⟩
    have hlt : c < 255 := by omega
    unfold boundary_functions_loop
    rw [if_pos hlt, Nat.mod_eq_of_lt (by omega : c + 1 < 256),
      boundary_functions_loop_from function n (c + 1) _ fuel' (by omega) (by omega)]
    congr 1
    funext k
    by_cases hk : k = c
    · subst hk
      rw [if_neg (by omega), if_pos rfl, if_pos ⟨Nat.le_refl _, hlt⟩]
    · by_cases hk' : c + 1 ≤ k ∧ k < 255
      · rw [if_pos hk', if_pos ⟨by omega, hk'.2⟩]
      · rw [if_neg hk', if_neg hk, if_neg (by omega)]

/-- C24: the loop over the boundary indicators ends after `256` tests of its
condition, and the map it has built then has exactly the keys `0, ..., 254`,
each with the given function as value; `255` is not a key.  On the
project-to-boundary-first path `project` passes this map to
`project_boundary_values`. -/
theorem boundary_functions_keys (function : Function X R) :
    ∃ boundary_functions : BoundaryFunctions X R,
      (∀ fuel, 256 ≤ fuel →
        boundary_functions_loop function fuel 0 (fun _ => none) = some boundary_functions) ∧
      (∀ k, k < 255 → boundary_functions k = some function) ∧
      (∀ k, 255 ≤ k → boundary_functions k = none) ∧
      boundary_functions 255 = none ∧
      ∀ [Zero R] (fuel dim : Nat) (fe : FaceFiniteElement)
        (active_faces : List (BoundaryFace X)) (dof_to_boundary_mapping : List Int)
        (boundary_projection : Nat → R),
        256 ≤ fuel → dim ≠ 1 → fe.n_components = function.n_components →
        project_make_boundary_values fuel dim fe active_faces function false true
            dof_to_boundary_mapping boundary_projection =
          some (project_boundary_values dim fe.n_components boundary_functions
            dof_to_boundary_mapping boundary_projection (fun _ => none)) := by
  refine ⟨fun k => if 0 ≤ k ∧ k < 255 then some function else none, ?_, ?_, ?_, ?_, ?_⟩
  · intro fuel hfuel
    exact boundary_functions_loop_from function 255 0 (fun _ => none) fuel rfl (by omega)
  · intro k hk
    simp [hk]
  · intro k hk
    simp only [Nat.zero_le, true_and]
    rw [if_neg (by omega)]
  · simp
  · intro _ fuel dim fe active_faces dof_to_boundary_mapping boundary_projection hfuel hdim
      hcomp
    unfold project_make_boundary_values
    rw [if_neg hdim, if_neg (not_not.mpr hcomp), if_neg (by simp), if_pos rfl,
      boundary_functions_loop_from function 255 0 (fun _ => none) fuel rfl (by omega)]

end ProjectClaims

/-! ## The update flags of `integrate_difference` -/

/-- C27: for no norm does the flag word passed to `FEValues` contain
`update_values`: the statement of line 740 compares and discards.  The word
consists of `update_q_points` and `update_JxW_values`, and of
`update_gradients` for `H1_seminorm` and `H1_norm`. -/
theorem update_flags_lack_update_values (norm : NormType) :
    UpdateFlag.update_values ∉ integrate_difference_update_flags norm ∧
    UpdateFlag.update_q_points ∈ integrate_difference_update_flags norm ∧
    UpdateFlag.update_JxW_values ∈ integrate_difference_update_flags norm ∧
    (UpdateFlag.update_gradients ∈ integrate_difference_update_flags norm ↔
      norm = NormType.H1_seminorm ∨ norm = NormType.H1_norm) ∧
    integrate_difference_update_flags NormType.L2_norm
      = {UpdateFlag.update_q_points, UpdateFlag.update_JxW_values} := by
  cases norm <;> decide

end VectorTools
